import Mathlib

/-!
Verification of the constraint-generation phase of the inclusion-based
points-to analysis (package `pointer` of this repository).

The development shallowly embeds the generator's data model — the node
table, object headers, the constraint kinds and the emission helpers
`copy`, `addressOf`, `load`, `store` — together with the generation
rules for `append`, conversions, built-in calls, the `reflect` intrinsic
constraints (`TypeOf`, `Zero`), the context-sensitivity policy
`shouldUseContext`, and the epilogue of `generate` that materializes
`os.Args`.  Go panics are modelled by `Option`/`none`; Go maps by
association lists; node ids by `Nat` (0 is the reserved sentinel).
-/

namespace PTA

/-- The language types as the flattener sees them.  `rtype` stands for
the struct `reflect.rtype`; named types are modelled as already reduced
to their underlying type.  `array` carries its length (the flattener
ignores it: arrays are element-collapsed). -/
inductive Ty where
  | invalid : Ty
  | scalar : Ty
  | str : Ty
  | unsafePtr : Ty
  | rtype : Ty
  | iface : Ty
  | ptr : Ty → Ty
  | slice : Ty → Ty
  | chan : Ty → Ty
  | array : Nat → Ty → Ty
  deriving DecidableEq, Repr

/-- Modelled from the spec: the flattener (§4.1) maps a type to the
ordered list of its scalar field positions; basic scalars, pointers,
channels, slices and interface heads yield one entry of themselves,
arrays are element-collapsed, and the analytically uninteresting type
yields the empty list.  (The flattener's source file is not part of the
provided sources.) -/
def flatten : Ty → List Ty
  | .invalid => []
  | .array _ t => flatten t
  | t => [t]

/-- Here `sizeof(T)` is the length of the flattening. -/
def sizeofTy (t : Ty) : Nat := (flatten t).length

/-- The type `*reflect.rtype` (field `a.reflectRtypePtr`). -/
def reflectRtypePtr : Ty := Ty.ptr Ty.rtype

/-- Here `sliceToArray` maps a slice type to the type of its backing array
(an array of length 1 of the element type), `invalid` otherwise. -/
def sliceToArray : Ty → Ty
  | .slice t => .array 1 t
  | _ => .invalid

/-- Here `mustDeref` returns the pointee of a pointer type (the source
panics on non-pointers; here any other argument maps to `invalid`). -/
def mustDeref : Ty → Ty
  | .ptr t => t
  | _ => .invalid

/-- The element type of a (backing-) array type. -/
def arrayElem : Ty → Ty
  | .array _ t => t
  | _ => .invalid

/-- Client-opaque data identifying an allocation, stored in the object
header (`object.data`).  Instructions, global variables and source
positions are abstracted by numeric identifiers. -/
inductive ObjData where
  | noData : ObjData
  | tyData : Ty → ObjData
  | instrData : Nat → ObjData
  | globalData : Nat → ObjData
  | cmdlineArgs : ObjData
  deriving DecidableEq, Repr

/-- An object header (`type object`): block size (excluding padding),
the allocating call-graph node if context-sensitive, client data, and
the `otTagged` / `otFunction` flag bits. -/
structure AObject where
  size : Nat
  cgn : Option Nat
  data : ObjData
  tagged : Bool
  isFunc : Bool
  deriving DecidableEq, Repr

/-- A node of the node table (`type node`): its semantic type and the
optional object header carried by the first node of an allocation.
The debugging-only `subelement` path is omitted. -/
structure ANode where
  typ : Ty
  obj : Option AObject
  deriving DecidableEq, Repr

/-- The five primitive constraint kinds of the constraint algebra
(`addrConstraint`, `copyConstraint`, `loadConstraint`,
`storeConstraint`, `offsetAddrConstraint`), over numeric node ids. -/
inductive Constr where
  | addr : Nat → Nat → Constr
  | copy : Nat → Nat → Constr
  | load : Nat → Nat → Nat → Constr
  | store : Nat → Nat → Nat → Constr
  | offsetAddr : Nat → Nat → Nat → Constr
  deriving DecidableEq, Repr

/-- Here `a.copy(dst, src, sizeof)`: no constraint when trivial
(`src == dst || sizeof == 0`), a panic (`none`) when the copy is
non-trivial and an endpoint is the sentinel node 0, otherwise one
`copyConstraint{dst+i, src+i}` per field `i < sizeof`. -/
def copyF (dst src sizeof : Nat) : Option (List Constr) :=
  if src = dst ∨ sizeof = 0 then some []
  else if src = 0 ∨ dst = 0 then none
  else some ((List.range sizeof).map fun i => Constr.copy (dst + i) (src + i))

/-- Here `a.addressOf(id, obj)`: panics (`none`) when `id` or `obj` is the
sentinel node 0, otherwise emits `addrConstraint{id, obj}`. -/
def addressOfF (id obj : Nat) : Option (List Constr) :=
  if id = 0 then none
  else if obj = 0 then none
  else some [Constr.addr id obj]

/-- Here `a.load(dst, src, offset, sizeof)`: returns without constraints
when `dst == 0`; panics when `src == 0` with `dst ≠ 0`; otherwise one
`loadConstraint{offset+i, dst+i, src}` per field. -/
def loadF (dst src offset sizeof : Nat) : Option (List Constr) :=
  if dst = 0 then some []
  else if src = 0 ∧ dst = 0 then some []
  else if src = 0 ∨ dst = 0 then none
  else some ((List.range sizeof).map fun i => Constr.load (offset + i) (dst + i) src)

/-- Here `a.store(dst, src, offset, sizeof)`: returns without constraints
when `src == 0`; panics when `dst == 0` with `src ≠ 0`; otherwise one
`storeConstraint{offset+i, dst, src+i}` per field. -/
def storeF (dst src offset sizeof : Nat) : Option (List Constr) :=
  if src = 0 then some []
  else if src = 0 ∧ dst = 0 then some []
  else if src = 0 ∨ dst = 0 then none
  else some ((List.range sizeof).map fun i => Constr.store (offset + i) dst (src + i))

/-- The mutable generator state of one `analysis` value: the node
table, the constraint list, and the memoization / bookkeeping maps the
claims touch (`a.rtypes`, `a.reflectZeros`, `a.probes`, `a.globalobj`),
the print-hook invocation log (the calls to `a.config.Print`), and the
warning list filled by `a.warnf`.  Maps are association lists. -/
structure AState where
  nodes : List ANode
  constraints : List Constr
  rtypes : List (Ty × Nat)
  reflectZeros : List (Ty × Nat)
  probes : List (Nat × Nat)
  hookLog : List Nat
  globalobj : List (Nat × Nat)
  warnings : List Nat
  deriving DecidableEq, Repr

/-- Here `a.nextNode()`: the index of the next unused node. -/
def nextNode (a : AState) : Nat := a.nodes.length

/-- Here `a.addOneNode(typ, comment, subelement)`: appends a single node
with type `typ` and no object header, returning its id.  The comment
and subelement are debugging aids and are not modelled. -/
def addOneNode (a : AState) (typ : Ty) : Nat × AState :=
  (a.nodes.length, { a with nodes := a.nodes ++ [ANode.mk typ none] })

/-- Here `a.addNodes(typ, comment)`: appends one node per element of
`flatten typ` and returns the id of the first, or 0 if the type
contained no nodes. -/
def addNodesS (a : AState) (typ : Ty) : Nat × AState :=
  let id := nextNode a
  let a2 := (flatten typ).foldl (fun s t => (addOneNode s t).2) a
  if id = nextNode a2 then (0, a2) else (id, a2)

/-- The header-installing update applied by `endObject` to the first
node of the promoted block. -/
def mkHeader (size : Nat) (cgn : Option Nat) (data : ObjData) (tagged isFunc : Bool)
    (n : ANode) : ANode :=
  { n with obj := some (AObject.mk size cgn data tagged isFunc) }

/-- Here `a.endObject(obj, cgn, data)`: promotes the block
`[obj, nextNode)` into an object by installing a header (with the
block size, the allocating cgn and the client data) on its first node,
padding with one `invalid` node when the block is empty.  The flag
bits set by callers on the returned object are passed as arguments. -/
def endObject (a : AState) (obj : Nat) (cgn : Option Nat) (data : ObjData)
    (tagged isFunc : Bool) : AState :=
  let size := nextNode a - obj
  let a2 := if size = 0 then (addOneNode a Ty.invalid).2 else a
  { a2 with nodes := a2.nodes.modify (mkHeader size cgn data tagged isFunc) obj }

/-- The object-header placement invariant: whenever a node carries an
object header, the block it heads lies within the table and none of
the other nodes of the block carries a header of its own. -/
def headerInv (ns : List ANode) : Prop :=
  ∀ i n o, ns[i]? = some n → n.obj = some o →
    i + o.size ≤ ns.length ∧
    ∀ j m, i < j → j < i + o.size → ns[j]? = some m → m.obj = none

/-- An SSA instruction as `shouldUseContext` inspects it: a call whose
callee is an `*ssa.Builtin`, a call to anything else, or a non-call. -/
inductive SInstr where
  | callBuiltin : SInstr
  | callNonBuiltin : SInstr
  | nonCall : SInstr
  deriving DecidableEq, Repr

/-- The shape of an `*ssa.Function` that the context-sensitivity
policy consults: whether `a.findIntrinsic(fn)` is non-nil, the basic
blocks with their instructions, whether `fn.Synthetic` is non-empty,
and whether `fn` is its package's `init` function (with a non-nil
package). -/
structure GoFunc where
  intrinsic : Bool
  blocks : List (List SInstr)
  synthetic : Bool
  isPkgInit : Bool
  deriving DecidableEq, Repr

/-- Here `a.shouldUseContext(fn)`: intrinsics are context-sensitive; a
function with other than one basic block, or more than 10 instructions,
is shared; a synthetic non-`init` function passing those size checks is
context-sensitive; otherwise the single block must contain no call
other than to a built-in. -/
def shouldUseContext (fn : GoFunc) : Bool :=
  if fn.intrinsic then true
  else match fn.blocks with
    | [blk] =>
      if blk.length > 10 then false
      else if fn.synthetic && !fn.isPkgInit then true
      else blk.all fun i =>
        match i with
        | .callNonBuiltin => false
        | _ => true
    | _ => false

/-- The two ways `genStaticCall` materializes the callee's contour:
`makeFunctionObject fn site` (fresh, per-callsite) or
`objectNode nil fn` (shared). -/
inductive ContourKind where
  | fresh : ContourKind
  | shared : ContourKind
  deriving DecidableEq, Repr

/-- The contour decision of `genStaticCall`: a new contour exactly
when `shouldUseContext` holds. -/
def staticCallContour (fn : GoFunc) : ContourKind :=
  if shouldUseContext fn then ContourKind.fresh else ContourKind.shared

/-- The context-sensitivity policy as the claim states it: intrinsic,
or synthetic wrapper, or short and simple (single block, at most 10
instructions, no non-builtin call). -/
def claimedContourPolicy (fn : GoFunc) : Bool :=
  fn.intrinsic || fn.synthetic ||
    (decide (fn.blocks.length = 1) &&
      decide ((fn.blocks.headD []).length ≤ 10) &&
      (fn.blocks.headD []).all fun i =>
        match i with
        | .callNonBuiltin => false
        | _ => true)

/-- The policy as amended: intrinsic, or — single block of at most 10
instructions and (synthetic non-`init`, or no non-builtin call). -/
def amendedContourPolicy (fn : GoFunc) : Bool :=
  fn.intrinsic ||
    (decide (fn.blocks.length = 1) &&
      decide ((fn.blocks.headD []).length ≤ 10) &&
      ((fn.synthetic && !fn.isPkgInit) ||
        (fn.blocks.headD []).all fun i =>
          match i with
          | .callNonBuiltin => false
          | _ => true))

/-- Read of a type-keyed map (`typemap.At`): the first binding for the
key, or `none` when absent (a nil interface in Go). -/
def lookupT (m : List (Ty × Nat)) (T : Ty) : Option Nat :=
  (m.find? fun p => decide (p.1 = T)).map Prod.snd

/-- Write of a type-keyed map (`typemap.Set`): replaces the binding
for the key, or appends a fresh one. -/
def setT (m : List (Ty × Nat)) (T : Ty) (id : Nat) : List (Ty × Nat) :=
  match m with
  | [] => [(T, id)]
  | p :: rest => if p.1 = T then (T, id) :: rest else p :: setT rest T id

/-- Appends freshly emitted constraints to the state, propagating a
panic of the emitting helper. -/
def emitCs (a : AState) (o : Option (List Constr)) : Option AState :=
  o.map fun cs => { a with constraints := a.constraints ++ cs }

/-- Here `a.makeTagged(typ, cgn, data)`: a head node of type `typ`, payload
nodes per `flatten typ`, and a header with the `otTagged` flag. -/
def makeTagged (a : AState) (typ : Ty) (cgn : Option Nat) (data : ObjData) :
    Nat × AState :=
  let p := addOneNode a typ
  let a2 := (addNodesS p.2 typ).2
  (p.1, endObject a2 p.1 cgn data true false)

/-- Here `a.makeRtype(T)`: the canonical `*rtype` tagged object for `T` —
on a cache miss, creates the single-node `rtype` object for `T`, wraps
a tagged `*rtype` object around it (overwriting the payload node type
with `T`, the singleton trick of the source), makes the payload point
at the `rtype` object, and caches the tagged object id in `a.rtypes`;
on a hit, returns the cached id unchanged. -/
def makeRtype (a : AState) (T : Ty) : Option (Nat × AState) :=
  match lookupT a.rtypes T with
  | some v => some (v, a)
  | none =>
    let obj := nextNode a
    let a1 := endObject (addOneNode a T).2 obj none (ObjData.tyData T) false false
    let p := makeTagged a1 reflectRtypePtr none (ObjData.tyData T)
    let a3 := { p.2 with
      nodes := p.2.nodes.modify (fun n => { n with typ := T }) (p.1 + 1) }
    match emitCs a3 (addressOfF (p.1 + 1) obj) with
    | none => none
    | some a4 => some (p.1, { a4 with rtypes := setT a4.rtypes T p.1 })

/-- The dynamic-type component of `a.taggedValue(id)`: the type tag of
the tagged object heading at `id`; `none` both when the node has no
object header (a nil dereference in the source) and when the object is
untagged (the source returns a nil type). -/
def taggedValueTy (a : AState) (id : Nat) : Option Ty :=
  match a.nodes[id]? with
  | some n =>
    match n.obj with
    | some o => if o.tagged then some n.typ else none
    | none => none
  | none => none

/-- Here `a.rtypeTaggedValue(obj)`: the payload type of a
`*reflect.rtype`-tagged object; panics (`none`) when the dynamic type
tag is not `*reflect.rtype`. -/
def rtypeTaggedValue (a : AState) (obj : Nat) : Option Ty :=
  match taggedValueTy a obj with
  | some tDyn =>
      if tDyn = reflectRtypePtr then (a.nodes[obj + 1]?).map ANode.typ else none
  | none => none

/-- One step of `reflectTypeOfConstraint.solve`: for a label `iObj` of
the input, panic if it is not a tagged value, else add the canonical
rtype object `makeRtype(tDyn)` of its dynamic type to the result.  The
returned id is the label passed to `addLabel(c.result, _)`. -/
def typeOfSolveOne (a : AState) (iObj : Nat) : Option (Nat × AState) :=
  match taggedValueTy a iObj with
  | none => none
  | some tDyn => makeRtype a tDyn

/-- Here `reflectTypeOfConstraint.solve` over a delta of labels, returning
the list of labels added to the result node, in processing order. -/
def typeOfSolve (a : AState) (delta : List Nat) : Option (List Nat × AState) :=
  match delta with
  | [] => some ([], a)
  | o :: rest =>
    (typeOfSolveOne a o).bind fun p =>
      (typeOfSolve p.2 rest).map fun q => (p.1 :: q.1, q.2)

/-- One step of `reflectZeroConstraint.solve`: for a label `typObj` of
the `typ` argument, read the represented type `T` via
`rtypeTaggedValue`, then — since the memoization guard of the source is
`false && z != nil` — unconditionally create a fresh tagged object of
type `T` at this cgn, record it in `a.reflectZeros[T]`, and add it to
the result.  The returned id is the label passed to `addLabel`. -/
def zeroSolveOne (a : AState) (cgn : Option Nat) (typObj : Nat) : Option (Nat × AState) :=
  match rtypeTaggedValue a typObj with
  | none => none
  | some T =>
    let z := lookupT a.reflectZeros T
    if false && z.isSome then
      some (z.getD 0, a)
    else
      let p := makeTagged a T cgn ObjData.noData
      some (p.1, { p.2 with reflectZeros := setT p.2.reflectZeros T p.1 })

/-- Here `reflectZeroConstraint.solve` over a delta of labels, returning
the labels added to the result node in processing order. -/
def zeroSolve (a : AState) (cgn : Option Nat) (delta : List Nat) :
    Option (List Nat × AState) :=
  match delta with
  | [] => some ([], a)
  | o :: rest =>
    (zeroSolveOne a cgn o).bind fun p =>
      (zeroSolve p.2 cgn rest).map fun q => (p.1 :: q.1, q.2)

/-- A node table holding only the reserved sentinel node 0, as set up
at the start of `generate`. -/
def baseState : AState :=
  AState.mk [ANode.mk Ty.invalid none] [] [] [] [] [] [] []

/-- A state whose node 1 heads the `*reflect.rtype`-tagged object for
the type `scalar` (payload node 2), as `makeRtype` would build it. -/
def zeroProbeState : AState :=
  AState.mk
    [ANode.mk Ty.invalid none,
     ANode.mk reflectRtypePtr (some (AObject.mk 2 none (ObjData.tyData Ty.scalar) true false)),
     ANode.mk Ty.scalar none]
    [] [] [] [] [] [] []

/-- Here `zeroProbeState` after one `Zero` solve step for node 1. -/
def zeroProbeState1 : AState :=
  AState.mk
    [ANode.mk Ty.invalid none,
     ANode.mk reflectRtypePtr (some (AObject.mk 2 none (ObjData.tyData Ty.scalar) true false)),
     ANode.mk Ty.scalar none,
     ANode.mk Ty.scalar (some (AObject.mk 2 none ObjData.noData true false)),
     ANode.mk Ty.scalar none]
    [] [] [(Ty.scalar, 3)] [] [] [] []

/-- Here `zeroProbeState1` after a second `Zero` solve step for node 1. -/
def zeroProbeState2 : AState :=
  AState.mk
    [ANode.mk Ty.invalid none,
     ANode.mk reflectRtypePtr (some (AObject.mk 2 none (ObjData.tyData Ty.scalar) true false)),
     ANode.mk Ty.scalar none,
     ANode.mk Ty.scalar (some (AObject.mk 2 none ObjData.noData true false)),
     ANode.mk Ty.scalar none,
     ANode.mk Ty.scalar (some (AObject.mk 2 none ObjData.noData true false)),
     ANode.mk Ty.scalar none]
    [] [] [(Ty.scalar, 5)] [] [] [] []

/-- The built-in names `genBuiltinCall` dispatches on that matter for
the print-probe rule; every name other than `print` that reaches the
default arm (`close`, `len`, `cap`, `real`, `imag`, `complex`,
`println`, `delete`) is a no-op there. -/
inductive BName where
  | print : BName
  | println : BName
  | otherBuiltin : BName
  deriving DecidableEq, Repr

/-- Read of the callsite-keyed probe map `a.probes` (a Go map read:
a missing key yields the zero nodeid through `getD 0` at the use
site). -/
def lookupN (m : List (Nat × Nat)) (k : Nat) : Option Nat :=
  (m.find? fun p => decide (p.1 = k)).map Prod.snd

/-- Write of the callsite-keyed probe map `a.probes`. -/
def setN (m : List (Nat × Nat)) (k v : Nat) : List (Nat × Nat) :=
  match m with
  | [] => [(k, v)]
  | p :: rest => if p.1 = k then (k, v) :: rest else p :: setN rest k v

/-- The `print` and default arms of `genBuiltinCall` (`append`,
`copy`, `panic` and `recover` are modelled by their own generators):
for `print` with a client print hook, read the canonical probe node
for this call site; on the first encounter create it from the first
argument's type, store it in `a.probes` and invoke the hook (logged in
`hookLog`); in every case merge the first argument into the probe.
`println` and the other default-arm builtins are no-ops. -/
def genBuiltinProbe (a : AState) (hook : Bool) (name : BName) (site : Nat)
    (argTy : Ty) (argId : Nat) : Option AState :=
  match name with
  | .print =>
    if hook then
      let probe := (lookupN a.probes site).getD 0
      if probe = 0 then
        let p := addNodesS a argTy
        let a2 := { p.2 with
          probes := setN p.2.probes site p.1,
          hookLog := p.2.hookLog ++ [site] }
        emitCs a2 (copyF p.1 argId (sizeofTy argTy))
      else
        emitCs a (copyF probe argId (sizeofTy argTy))
    else some a
  | _ => some a

/-- A sequence of builtin-call encounters as generation meets them
(the same call site re-appears once per contour); the argument type
and the argument's value node are functions of the call site. -/
def runPrints (a : AState) (hook : Bool) (siteTy : Nat → Ty) (siteArg : Nat → Nat) :
    List (BName × Nat) → Option AState
  | [] => some a
  | e :: rest =>
    (genBuiltinProbe a hook e.1 e.2 (siteTy e.2) (siteArg e.2)).bind fun a2 =>
      runPrints a2 hook siteTy siteArg rest

/-- The per-site probe/hook invariant maintained over a run: a site
either has no probe yet and its hook was never fired, or it has a
nonzero canonical probe and its hook fired exactly once. -/
def probeInv (a : AState) : Prop :=
  ∀ s : Nat,
    (lookupN a.probes s = none ∧ a.hookLog.count s = 0) ∨
    (∃ p, lookupN a.probes s = some p ∧ p ≠ 0 ∧ a.hookLog.count s = 1)

/-- The state at the end of the two-encounter witness run for C3. -/
def printRunState : AState :=
  AState.mk [ANode.mk Ty.invalid none, ANode.mk Ty.scalar none]
    [Constr.copy 1 2, Constr.copy 1 2] [] [] [(7, 1)] [7] [] []

/-- Here `a.genLoad(cgn, result, ptr, offset, sizeof)`, parameterized by
`objRes = objectNode(cgn, ptr)` and `valRes = valueNode(ptr)`: when
the pointer's sole object is known, pre-apply the load as a direct
copy from `obj+offset`; otherwise emit a load constraint. -/
def genLoadF (objRes valRes result offset sizeof : Nat) : Option (List Constr) :=
  if objRes ≠ 0 then copyF result (objRes + offset) sizeof
  else loadF result valRes offset sizeof

/-- Here `a.genStore(cgn, ptr, val, offset, sizeof)`, parameterized by
`objRes = objectNode(cgn, ptr)` and `valRes = valueNode(ptr)`: when
the pointer's sole object is known, pre-apply the store as a direct
copy into `obj+offset`; otherwise emit a store constraint. -/
def genStoreF (objRes valRes val offset sizeof : Nat) : Option (List Constr) :=
  if objRes ≠ 0 then copyF (objRes + offset) val sizeof
  else storeF valRes val offset sizeof

/-- Here `a.genAppend(instr, cgn)` for `z = append(x, y?)`, parameterized
by `zId = valueNode(z)`, `xId = valueNode(x)`, the slice type of `x`,
whether the optional `y` is present, and `yObj = objectNode(cgn, y)`,
`yVal = valueNode(y)`.  The `objectNode` of the call value `z` itself
is 0 (no `objectNode` case matches a `*ssa.Call`), so the element
store always falls back to a store constraint on `zId`. -/
def genAppend (a : AState) (cgn instr zId xId : Nat) (xTy : Ty)
    (twoArgs : Bool) (yObj yVal : Nat) : Option AState :=
  (emitCs a (copyF zId xId 1)).bind fun a1 =>
    if !twoArgs then some a1
    else
      let tArray := sliceToArray xTy
      let w := nextNode a1
      let a2 := (addNodesS a1 tArray).2
      let a3 := endObject a2 w (some cgn) (ObjData.instrData instr) false false
      let tElem := arrayElem tArray
      let p := addNodesS a3 tElem
      let sz := sizeofTy tElem
      (emitCs p.2 (genLoadF yObj yVal p.1 1 sz)).bind fun a4 =>
        (emitCs a4 (genStoreF 0 zId p.1 1 sz)).bind fun a5 =>
          emitCs a5 (addressOfF zId w)

/-- Here `a.genConv(conv, cgn)`, parameterized by `res = valueNode(conv)`
(0 means a non-pointerlike result, an early return), the underlying
source and destination types, and the path of the enclosing function's
package.  The `basic` source cases are `scalar`, `str` and
`unsafePtr`; unhandled shape combinations panic ("illegal Convert").
The `unsafe.Pointer → *T` case warns via `a.warnf` (appending the
source position to the warning list) unless the package is `syscall`,
then treats the conversion like `new(T)`: a fresh object of the
pointee type addressed to the result. -/
def genConv (a : AState) (res : Nat) (tSrc tDst : Ty) (pkg : String)
    (cgn : Option Nat) (conv pos : Nat) : Option AState :=
  if res = 0 then some a
  else
    match tSrc with
    | .slice _ => some a
    | .ptr _ => if tDst = Ty.unsafePtr then some a else none
    | .scalar | .str | .unsafePtr =>
      match tDst with
      | .ptr _ =>
        if tSrc = Ty.unsafePtr then
          let a1 := if pkg ≠ "syscall" then { a with warnings := a.warnings ++ [pos] }
            else a
          let p := addNodesS a1 (mustDeref tDst)
          let a3 := endObject p.2 p.1 cgn (ObjData.instrData conv) false false
          emitCs a3 (addressOfF res p.1)
        else none
      | .slice _ =>
        if tSrc = Ty.str then
          let p := addNodesS a (sliceToArray tDst)
          let a3 := endObject p.2 p.1 cgn (ObjData.instrData conv) false false
          emitCs a3 (addressOfF res p.1)
        else none
      | .scalar | .str | .unsafePtr =>
        if tSrc = Ty.unsafePtr ∨ tDst = Ty.unsafePtr then some a
        else some a
      | _ => none
    | _ => none

/-- The `*ssa.Global` arm of `objectNode(nil, v)` for a global `v`
(abstracted by the id `g` and its type): read `a.globalobj[v]`; on a
miss, take `nextNode`, add the nodes of the pointee of the global's
type, install an object header with no cgn, and cache the object id
in `a.globalobj`. -/
def objectNodeGlobal (a : AState) (g : Nat) (gTy : Ty) : Nat × AState :=
  match lookupN a.globalobj g with
  | some v => (v, a)
  | none =>
    let obj := nextNode a
    let a1 := (addNodesS a (mustDeref gTy)).2
    let a2 := endObject a1 obj none (ObjData.globalData g) false false
    (obj, { a2 with globalobj := setN a2.globalobj g obj })

/-- The epilogue of `generate`: when the program imports package `os`,
allocate the synthetic `<command-line args>` object — a one-element
array of string, ended with a nil cgn — and address it to the object
node of the global `os.Args` (a global of type `*[]string`); when
`os` is not imported, do nothing. -/
def genOsArgs (a : AState) (osImported : Bool) (osArgsVar : Nat) : Option AState :=
  if osImported then
    let p := addNodesS a (Ty.array 1 Ty.str)
    let a2 := endObject p.2 p.1 none ObjData.cmdlineArgs false false
    let q := objectNodeGlobal a2 osArgsVar (Ty.ptr (Ty.slice Ty.str))
    emitCs q.2 (addressOfF q.1 p.1)
  else some a

/-- A small state whose global variable 3 (os.Args) already has its
object node 2. -/
def osState : AState :=
  AState.mk
    [ANode.mk Ty.invalid none, ANode.mk Ty.scalar none, ANode.mk (Ty.slice Ty.str) none]
    [] [] [] [] [] [(3, 2)] []

/-- Modelled from the spec: the solver's meaning of the primitive
constraints (§4.3, propagation table, read as closure conditions on a
points-to valuation) — `addr{dst,obj}` inserts `obj` into `pts(dst)`;
`copy{dst,src}` flows all labels of `src` into `dst`; `load{o,dst,src}`
flows, for each `p ∈ pts(src)`, the labels of `p+o` into `dst`;
`store{o,dst,src}` flows the labels of `src` into `p+o` for each
`p ∈ pts(dst)`; `offsetAddr{o,dst,src}` inserts `p+o` for each
`p ∈ pts(src)`.  (The solver's source file is not part of the provided
sources.) -/
def sat (S : Nat → Set Nat) : Constr → Prop
  | .addr dst obj => obj ∈ S dst
  | .copy dst src => S src ⊆ S dst
  | .load offset dst src => ∀ o ∈ S src, S (o + offset) ⊆ S dst
  | .store offset dst src => ∀ o ∈ S dst, S src ⊆ S (o + offset)
  | .offsetAddr offset dst src => ∀ o ∈ S src, o + offset ∈ S dst

/-- A valuation satisfying every constraint of a set. -/
def Sol (S : Nat → Set Nat) (C : Set Constr) : Prop := ∀ c ∈ C, sat S c

/-- Modelled from the spec: the final points-to solution computed by
the worklist solver is the least fixed point — the pointwise-smallest
valuation satisfying all constraints (§4.5: monotone growth from empty
sets to a fixed point). -/
def LeastSol (S : Nat → Set Nat) (C : Set Constr) : Prop :=
  Sol S C ∧ ∀ T, Sol T C → ∀ n, S n ⊆ T n

/-- Concrete valuation for the load-side witness: node 1 points to
object 2, whose field holds object 9, loaded into node 3. -/
def solWitA : Nat → Set Nat := fun n =>
  if n = 1 then {2} else if n = 2 then {9} else if n = 3 then {9} else ∅

/-- Concrete valuation for the store-side witness: node 1 points to
object 2, and node 4 (holding object 7) is stored through it. -/
def solWitC : Nat → Set Nat := fun n =>
  if n = 1 then {2} else if n = 2 then {7} else if n = 4 then {7} else ∅

/-- Base constraints of the load-side witness. -/
def conWitA : Set Constr := {Constr.addr 1 2, Constr.addr 2 9}

/-- Base constraints of the store-side witness. -/
def conWitC : Set Constr := {Constr.addr 1 2, Constr.addr 4 7}

/-- C5: node id 0 is never an endpoint of an emitted `addr` or
non-trivial `copy` constraint: `addressOf` panics exactly when its
destination or its object argument is 0 (so every emitted `addr`
constraint has nonzero endpoints), `copy` with positive width and
distinct endpoints panics exactly when an endpoint is 0, and a `copy`
with `src = dst` or zero width emits no constraint at all. -/
theorem claim5_zero_node_never_addr_or_copy_endpoint
    (dst src sz id obj : Nat) :
    ((addressOfF id obj).isNone ↔ id = 0 ∨ obj = 0) ∧
    (∀ cs, addressOfF id obj = some cs →
      ∀ d o, Constr.addr d o ∈ cs → d ≠ 0 ∧ o ≠ 0) ∧
    (src = dst ∨ sz = 0 → copyF dst src sz = some []) ∧
    (sz ≠ 0 → src ≠ dst → ((copyF dst src sz).isNone ↔ src = 0 ∨ dst = 0)) ∧
    (∀ cs, copyF dst src sz = some cs →
      ∀ d s, Constr.copy d s ∈ cs → d ≠ 0 ∧ s ≠ 0) := by
  refine ⟨?_, ?_, ?_, ?_, ?_⟩
  · unfold addressOfF
    by_cases h1 : id = 0 <;> by_cases h2 : obj = 0 <;> simp [h1, h2]
  · intro cs hcs d o hmem
    unfold addressOfF at hcs
    by_cases h1 : id = 0
    · simp [h1] at hcs
    · by_cases h2 : obj = 0
      · simp [h1, h2] at hcs
      · simp [h1, h2] at hcs
        subst hcs
        simp at hmem
        exact ⟨hmem.1 ▸ h1, hmem.2 ▸ h2⟩
  · intro h
    unfold copyF
    simp [h]
  · intro hsz hne
    unfold copyF
    have : ¬ (src = dst ∨ sz = 0) := by
      push_neg
      exact ⟨hne, hsz⟩
    by_cases h0 : src = 0 ∨ dst = 0 <;> simp [this, h0]
  · intro cs hcs d s hmem
    unfold copyF at hcs
    by_cases htriv : src = dst ∨ sz = 0
    · simp [htriv] at hcs
      subst hcs
      simp at hmem
    · by_cases h0 : src = 0 ∨ dst = 0
      · simp [htriv, h0] at hcs
      · push_neg at h0
        simp [htriv, h0.1, h0.2] at hcs
        subst hcs
        simp at hmem
        obtain ⟨i, _, hd, hs⟩ := hmem
        constructor
        · intro h
          omega
        · intro h
          omega

/-- Witness for C5 at concrete inputs. -/
theorem claim5_zero_node_never_addr_or_copy_endpoint_witness :
    copyF 3 3 1 = some [] ∧ ((copyF 4 0 2).isNone ↔ (0 : Nat) = 0 ∨ (4 : Nat) = 0) := by
  have h := claim5_zero_node_never_addr_or_copy_endpoint 4 0 2 1 2
  have h2 := claim5_zero_node_never_addr_or_copy_endpoint 3 3 1 1 2
  exact ⟨h2.2.2.1 (Or.inl rfl), h.2.2.2.1 (by decide) (by decide)⟩

lemma headerInv_append_none {ns : List ANode} (h : headerInv ns) (t : Ty) :
    headerInv (ns ++ [ANode.mk t none]) := by
  intro i n o hi hobj
  rcases Nat.lt_or_ge i ns.length with hlt | hge
  · rw [List.getElem?_append_left hlt] at hi
    obtain ⟨hbound, hinner⟩ := h i n o hi hobj
    refine ⟨by simpa using Nat.le_trans hbound (by simp), ?_⟩
    intro j m hij hj hjm
    have hjlt : j < ns.length := Nat.lt_of_lt_of_le hj hbound
    rw [List.getElem?_append_left hjlt] at hjm
    exact hinner j m hij hj hjm
  · rw [List.getElem?_append_right hge] at hi
    rcases Nat.eq_or_lt_of_le hge with heq | hgt
    · rw [← heq] at hi
      simp at hi
      rw [← hi] at hobj
      simp at hobj
    · have : i - ns.length ≥ 1 := by omega
      have : ([ANode.mk t none])[i - ns.length]? = none := by
        apply List.getElem?_eq_none
        simpa using this
      rw [this] at hi
      exact absurd hi (by simp)

lemma foldl_addOneNode (ts : List Ty) (a : AState) :
    ts.foldl (fun s t => (addOneNode s t).2) a =
      { a with nodes := a.nodes ++ ts.map fun t => ANode.mk t none } := by
  induction ts generalizing a with
  | nil =>
      cases a
      simp [addOneNode]
  | cons t ts ih =>
      rw [List.foldl_cons, ih]
      cases a
      simp [addOneNode]

lemma headerInv_append_none_many {ns : List ANode} (h : headerInv ns) (ts : List Ty) :
    headerInv (ns ++ ts.map fun t => ANode.mk t none) := by
  induction ts generalizing ns with
  | nil => simpa using h
  | cons t ts ih =>
      have := ih (headerInv_append_none h t)
      simpa using this

lemma addNodesS_nodes (a : AState) (typ : Ty) :
    (addNodesS a typ).2.nodes = a.nodes ++ (flatten typ).map fun t => ANode.mk t none := by
  unfold addNodesS
  rw [foldl_addOneNode]
  by_cases h : nextNode a = nextNode { a with nodes := a.nodes ++ (flatten typ).map fun t => ANode.mk t none } <;>
    simp [h]

lemma endObject_eq_pad (a : AState) (obj : Nat) (cgn : Option Nat) (data : ObjData)
    (tg fb : Bool) (h : a.nodes.length ≤ obj) :
    endObject a obj cgn data tg fb =
      { a with nodes :=
          (a.nodes ++ [ANode.mk Ty.invalid none]).modify (mkHeader 0 cgn data tg fb) obj } := by
  unfold endObject addOneNode nextNode
  have h0 : a.nodes.length - obj = 0 := by omega
  simp [h0]

lemma endObject_eq_inplace (a : AState) (obj : Nat) (cgn : Option Nat) (data : ObjData)
    (tg fb : Bool) (h : obj < a.nodes.length) :
    endObject a obj cgn data tg fb =
      { a with nodes :=
          a.nodes.modify (mkHeader (a.nodes.length - obj) cgn data tg fb) obj } := by
  unfold endObject nextNode
  have h0 : a.nodes.length - obj ≠ 0 := by omega
  simp [h0]

lemma headerInv_install (ns : List ANode) (obj sz : Nat) (cgn : Option Nat)
    (data : ObjData) (tg fb : Bool)
    (hInv : headerInv ns)
    (hlt : obj < ns.length)
    (hsz : obj + sz ≤ ns.length)
    (hend : ∀ i n o, ns[i]? = some n → n.obj = some o → i + o.size ≤ obj)
    (hfresh : ∀ j n, obj ≤ j → ns[j]? = some n → n.obj = none) :
    headerInv (ns.modify (mkHeader sz cgn data tg fb) obj) := by
  intro i n o hi hobj
  rw [List.getElem?_modify] at hi
  have hlen : (ns.modify (mkHeader sz cgn data tg fb) obj).length = ns.length :=
    List.length_modify ..
  rcases hx : ns[i]? with _ | n2
  · rw [hx] at hi
    exact absurd hi (by simp)
  · rw [hx] at hi
    simp only [Option.map_eq_map, Option.map_some, Option.some.injEq] at hi
    by_cases hio : obj = i
    · rw [if_pos hio] at hi
      rw [← hi] at hobj
      unfold mkHeader at hobj
      simp only [Option.some.injEq] at hobj
      subst hio
      refine ⟨?_, ?_⟩
      · rw [hlen, ← hobj]
        exact hsz
      · intro j m hij hj hjm
        rw [List.getElem?_modify] at hjm
        rcases hy : ns[j]? with _ | m2
        · rw [hy] at hjm
          exact absurd hjm (by simp)
        · rw [hy] at hjm
          simp only [Option.map_eq_map, Option.map_some, Option.some.injEq] at hjm
          have hjo : obj ≠ j := by omega
          rw [if_neg hjo] at hjm
          rw [← hjm]
          exact hfresh j m2 (Nat.le_of_lt hij) hy
    · rw [if_neg hio] at hi
      subst hi
      obtain ⟨hbound, hinner⟩ := hInv i n2 o hx hobj
      refine ⟨by omega, ?_⟩
      intro j m hij hj hjm
      rw [List.getElem?_modify] at hjm
      have hrange := hend i n2 o hx hobj
      rcases hy : ns[j]? with _ | m2
      · rw [hy] at hjm
        exact absurd hjm (by simp)
      · rw [hy] at hjm
        simp only [Option.map_eq_map, Option.map_some, Option.some.injEq] at hjm
        have hjo : obj ≠ j := by omega
        rw [if_neg hjo] at hjm
        subst hjm
        exact hinner j m2 hij hj hy

/-- C8: every node is created with no object header (`addOneNode`
appends a header-less node and preserves the invariant, and so does
`addNodes`), and `endObject`, applied under its calling discipline —
`obj` came from a prior `nextNode`, every existing object block ends at
or before `obj`, and every node at or beyond `obj` is header-less —
installs a header on the first node of the promoted block only.  Hence
for every object the nodes of its block carry no header except at its
head, and the invariant is preserved by every node- and object-creating
operation. -/
theorem claim8_object_header_placement (a : AState) (typ : Ty) (obj : Nat)
    (cgn : Option Nat) (data : ObjData) (tg fb : Bool)
    (hInv : headerInv a.nodes) :
    ((addOneNode a typ).2.nodes = a.nodes ++ [ANode.mk typ none] ∧
      headerInv (addOneNode a typ).2.nodes) ∧
    headerInv (addNodesS a typ).2.nodes ∧
    (obj ≤ a.nodes.length →
      (∀ i n o, a.nodes[i]? = some n → n.obj = some o → i + o.size ≤ obj) →
      (∀ j n, obj ≤ j → a.nodes[j]? = some n → n.obj = none) →
      headerInv (endObject a obj cgn data tg fb).nodes ∧
      (∃ n o, (endObject a obj cgn data tg fb).nodes[obj]? = some n ∧
        n.obj = some o ∧ o.size = a.nodes.length - obj ∧ o.cgn = cgn ∧ o.data = data) ∧
      (∀ j n, obj < j → (endObject a obj cgn data tg fb).nodes[j]? = some n →
        n.obj = none)) := by
  refine ⟨⟨rfl, headerInv_append_none hInv typ⟩, ?_, ?_⟩
  · rw [addNodesS_nodes]
    exact headerInv_append_none_many hInv (flatten typ)
  · intro hle hend hfresh
    rcases Nat.eq_or_lt_of_le hle with heq | hlt
    · -- empty block: one padding node is appended, header size is 0
      rw [endObject_eq_pad a obj cgn data tg fb (Nat.le_of_eq heq.symm)]
      set ns2 := a.nodes ++ [ANode.mk Ty.invalid none] with hns2
      have hInv2 : headerInv ns2 := headerInv_append_none hInv Ty.invalid
      have hlt2 : obj < ns2.length := by
        rw [hns2]
        simp
        omega
      have hpadget : ns2[obj]? = some (ANode.mk Ty.invalid none) := by
        rw [hns2, heq]
        simp
      have hend2 : ∀ i n o, ns2[i]? = some n → n.obj = some o → i + o.size ≤ obj := by
        intro i n o hi hobj
        rcases Nat.lt_or_ge i a.nodes.length with h1 | h1
        · rw [hns2, List.getElem?_append_left h1] at hi
          exact hend i n o hi hobj
        · rcases Nat.eq_or_lt_of_le h1 with h2 | h2
          · have hio : i = obj := by omega
            rw [hio, hpadget] at hi
            injection hi with hi
            rw [← hi] at hobj
            simp at hobj
          · rw [hns2] at hi
            have : (a.nodes ++ [ANode.mk Ty.invalid none])[i]? = none := by
              apply List.getElem?_eq_none
              simp
              omega
            rw [this] at hi
            exact absurd hi (by simp)
      have hfresh2 : ∀ j n, obj ≤ j → ns2[j]? = some n → n.obj = none := by
        intro j n hj hn
        rcases Nat.lt_or_ge j a.nodes.length with h1 | h1
        · rw [hns2, List.getElem?_append_left h1] at hn
          exact hfresh j n hj hn
        · rcases Nat.eq_or_lt_of_le h1 with h2 | h2
          · have hjo : j = obj := by omega
            rw [hjo, hpadget] at hn
            injection hn with hn
            rw [← hn]
          · rw [hns2] at hn
            have : (a.nodes ++ [ANode.mk Ty.invalid none])[j]? = none := by
              apply List.getElem?_eq_none
              simp
              omega
            rw [this] at hn
            exact absurd hn (by simp)
      refine ⟨headerInv_install ns2 obj 0 cgn data tg fb hInv2 hlt2 (by omega) hend2 hfresh2,
        ?_, ?_⟩
      · refine ⟨mkHeader 0 cgn data tg fb (ANode.mk Ty.invalid none),
          AObject.mk 0 cgn data tg fb, ?_, rfl, by simp; omega, rfl, rfl⟩
        show (ns2.modify (mkHeader 0 cgn data tg fb) obj)[obj]? = _
        rw [List.getElem?_modify, hpadget]
        simp
      · intro j n hj hn
        replace hn : (ns2.modify (mkHeader 0 cgn data tg fb) obj)[j]? = some n := hn
        rw [List.getElem?_modify] at hn
        rcases hy : ns2[j]? with _ | m2
        · rw [hy] at hn
          exact absurd hn (by simp)
        · rw [hy] at hn
          simp only [Option.map_eq_map, Option.map_some, Option.some.injEq] at hn
          have hjo : obj ≠ j := by omega
          rw [if_neg hjo] at hn
          subst hn
          exact hfresh2 j m2 (Nat.le_of_lt hj) hy
    · -- nonempty block: header installed in place
      rw [endObject_eq_inplace a obj cgn data tg fb hlt]
      refine ⟨headerInv_install a.nodes obj (a.nodes.length - obj) cgn data tg fb hInv hlt
        (by omega) hend hfresh, ?_, ?_⟩
      · obtain ⟨nh, hnh⟩ : ∃ nh, a.nodes[obj]? = some nh :=
          ⟨a.nodes.get ⟨obj, hlt⟩, List.getElem?_eq_getElem hlt⟩
        refine ⟨mkHeader (a.nodes.length - obj) cgn data tg fb nh,
          AObject.mk (a.nodes.length - obj) cgn data tg fb, ?_, rfl, rfl, rfl, rfl⟩
        show (a.nodes.modify (mkHeader (a.nodes.length - obj) cgn data tg fb) obj)[obj]? = _
        rw [List.getElem?_modify, hnh]
        simp
      · intro j n hj hn
        replace hn : (a.nodes.modify (mkHeader (a.nodes.length - obj) cgn data tg fb) obj)[j]?
            = some n := hn
        rw [List.getElem?_modify] at hn
        rcases hy : a.nodes[j]? with _ | m2
        · rw [hy] at hn
          exact absurd hn (by simp)
        · rw [hy] at hn
          simp only [Option.map_eq_map, Option.map_some, Option.some.injEq] at hn
          have hjo : obj ≠ j := by omega
          rw [if_neg hjo] at hn
          subst hn
          exact hfresh j m2 (Nat.le_of_lt hj) hy

/-- Witness for C8: the conjunction applied at a concrete one-node
state with all hypotheses discharged. -/
theorem claim8_object_header_placement_witness :
    headerInv ((addOneNode (AState.mk [ANode.mk Ty.invalid none] [] [] [] [] [] [] [])
      Ty.scalar).2.nodes) ∧
    headerInv ((endObject (AState.mk [ANode.mk Ty.invalid none] [] [] [] [] [] [] [])
      1 none ObjData.noData false false).nodes) := by
  have h := claim8_object_header_placement
      (AState.mk [ANode.mk Ty.invalid none] [] [] [] [] [] [] [])
      Ty.scalar 1 none ObjData.noData false false
      (by
        intro i n o hi hobj
        match i, hi with
        | 0, hi =>
          simp at hi
          rw [← hi] at hobj
          simp at hobj)
  refine ⟨h.1.2, ?_⟩
  have h3 := h.2.2 (by simp)
    (by
      intro i n o hi hobj
      match i, hi with
      | 0, hi =>
        simp at hi
        rw [← hi] at hobj
        simp at hobj)
    (by
      intro j n hj hn
      match j, hj, hn with
      | n2 + 1, hj, hn => simp at hn)
  exact h3.1

/-- C2, counterexample: a synthetic wrapper with two basic blocks is
covered by clause (b) of the claimed policy, yet `genStaticCall` uses
the shared contour for it, so the claimed "exactly when" fails. -/
theorem claim2_contour_policy_counterexample :
    claimedContourPolicy (GoFunc.mk false [[SInstr.nonCall], [SInstr.nonCall]] true false)
        = true ∧
    staticCallContour (GoFunc.mk false [[SInstr.nonCall], [SInstr.nonCall]] true false)
        = ContourKind.shared := by
  decide

/-- C2, amended: a statically dispatched callee receives a fresh
per-callsite contour exactly when it is an intrinsic, or it consists
of a single basic block of at most 10 instructions and is either a
synthetic wrapper other than a package initializer or contains no
calls except to built-ins; every other callee gets the shared
contour. -/
theorem claim2_contour_policy_amended (fn : GoFunc) :
    staticCallContour fn = ContourKind.fresh ↔ amendedContourPolicy fn = true := by
  unfold staticCallContour shouldUseContext amendedContourPolicy
  rcases fn with ⟨intr, blocks, syn, ini⟩
  rcases intr
  · rcases blocks with _ | ⟨blk, rest⟩
    · simp
    · rcases rest with _ | ⟨b2, rest⟩
      · by_cases hlen : blk.length > 10
        · simp [hlen]
        · have hlen2 : blk.length ≤ 10 := by omega
          rcases syn <;> rcases ini <;>
            by_cases hall : (blk.all fun i =>
              match i with
              | SInstr.callNonBuiltin => false
              | _ => true) = true <;>
            simp_all [hlen]
      · simp
  · simp

lemma modify_concat {α : Type} (f : α → α) (l : List α) (x : α) (r : List α) :
    (l ++ x :: r).modify f l.length = l ++ f x :: r := by
  induction l with
  | nil => rfl
  | cons y l ih => simpa [List.modify] using ih

lemma modify_concat_one {α : Type} (f : α → α) (l : List α) (x y : α) (r : List α) :
    (l ++ x :: y :: r).modify f (l.length + 1) = l ++ x :: f y :: r := by
  have h := modify_concat f (l ++ [x]) y r
  simp only [List.length_append, List.length_cons, List.length_nil, Nat.zero_add] at h
  simpa [List.append_assoc] using h

lemma modify_concat_two {α : Type} (f : α → α) (l : List α) (x y z : α) (r : List α) :
    (l ++ x :: y :: z :: r).modify f (l.length + 2) = l ++ x :: y :: f z :: r := by
  have h := modify_concat f (l ++ [x, y]) z r
  simp only [List.length_append, List.length_cons, List.length_nil, Nat.zero_add] at h
  simpa [List.append_assoc] using h

lemma addNodesS_eq (a : AState) (typ : Ty) :
    (addNodesS a typ).2 =
      { a with nodes := a.nodes ++ (flatten typ).map fun t => ANode.mk t none } := by
  unfold addNodesS
  rw [foldl_addOneNode]
  by_cases h : nextNode a =
      nextNode { a with nodes := a.nodes ++ (flatten typ).map fun t => ANode.mk t none } <;>
    simp [h]

lemma endObject_concat (a : AState) (pre : List ANode) (x : ANode) (post : List ANode)
    (cgn : Option Nat) (data : ObjData) (tg fb : Bool) (h : a.nodes = pre ++ x :: post) :
    endObject a pre.length cgn data tg fb =
      { a with nodes := pre ++ mkHeader (post.length + 1) cgn data tg fb x :: post } := by
  have hlt : pre.length < a.nodes.length := by
    rw [h]
    simp
  have hsz : a.nodes.length - pre.length = post.length + 1 := by
    rw [h]
    simp [List.length_append]
  rw [endObject_eq_inplace a pre.length cgn data tg fb hlt, hsz, h, modify_concat]

lemma makeTagged_spec (a : AState) (typ : Ty) (cgn : Option Nat) (data : ObjData) :
    makeTagged a typ cgn data = (a.nodes.length,
      { a with nodes := a.nodes ++
          ANode.mk typ (some (AObject.mk (1 + sizeofTy typ) cgn data true false)) ::
          ((flatten typ).map fun t => ANode.mk t none) }) := by
  unfold makeTagged
  show ((addOneNode a typ).1,
      endObject (addNodesS (addOneNode a typ).2 typ).2 (addOneNode a typ).1 cgn data true false)
    = _
  rw [addNodesS_eq]
  refine Prod.ext rfl ?_
  have hnodes : ({ (addOneNode a typ).2 with
      nodes := (addOneNode a typ).2.nodes ++ (flatten typ).map fun t => ANode.mk t none
      } : AState).nodes =
      a.nodes ++ ANode.mk typ none :: ((flatten typ).map fun t => ANode.mk t none) := by
    simp [addOneNode]
  have h := endObject_concat _ a.nodes (ANode.mk typ none)
    ((flatten typ).map fun t => ANode.mk t none) cgn data true false hnodes
  simp only [List.length_map] at h
  have hidx : (addOneNode a typ).1 = a.nodes.length := rfl
  rw [hidx, h]
  simp [mkHeader, addOneNode, sizeofTy, Nat.add_comm]

lemma lookupT_setT_self (m : List (Ty × Nat)) (T : Ty) (id : Nat) :
    lookupT (setT m T id) T = some id := by
  induction m with
  | nil => simp [setT, lookupT]
  | cons p rest ih =>
      by_cases hp : p.1 = T
      · simp [setT, hp, lookupT]
      · simp only [setT, if_neg hp]
        simpa [lookupT, List.find?_cons, hp] using ih

lemma lookupT_setT_ne (m : List (Ty × Nat)) (T T2 : Ty) (id : Nat) (h : T2 ≠ T) :
    lookupT (setT m T id) T2 = lookupT m T2 := by
  have h2 : ¬ (T = T2) := fun he => h he.symm
  induction m with
  | nil => simp [setT, lookupT, List.find?, h2]
  | cons p rest ih =>
      by_cases hp : p.1 = T
      · have hp3 : ¬ (p.1 = T2) := by
          rw [hp]
          exact h2
        simp [setT, hp, lookupT, List.find?_cons, h2, hp3]
      · by_cases hq : p.1 = T2
        · simp [setT, hp, lookupT, List.find?_cons, hq, h]
        · simp only [setT, if_neg hp]
          simpa [lookupT, List.find?_cons, hq] using ih

lemma makeRtype_hit (a : AState) (T : Ty) (v : Nat)
    (h : lookupT a.rtypes T = some v) : makeRtype a T = some (v, a) := by
  unfold makeRtype
  rw [h]

lemma makeRtype_miss (a : AState) (T : Ty) (h : lookupT a.rtypes T = none)
    (hne : a.nodes ≠ []) :
    makeRtype a T = some (a.nodes.length + 1,
      { a with
        nodes := a.nodes ++
          [ANode.mk T (some (AObject.mk 1 none (ObjData.tyData T) false false)),
           ANode.mk reflectRtypePtr (some (AObject.mk 2 none (ObjData.tyData T) true false)),
           ANode.mk T none],
        constraints := a.constraints ++ [Constr.addr (a.nodes.length + 2) a.nodes.length],
        rtypes := setT a.rtypes T (a.nodes.length + 1) }) := by
  have hlen : a.nodes.length ≠ 0 := by
    intro h0
    exact hne (List.eq_nil_of_length_eq_zero h0)
  unfold makeRtype
  rw [h]
  simp [nextNode, addOneNode, addNodesS, makeTagged, endObject, emitCs,
    addressOfF, flatten, reflectRtypePtr, mkHeader, hlen,
    modify_concat, modify_concat_one, modify_concat_two, List.append_assoc]

lemma makeRtype_some (a : AState) (T : Ty) (id : Nat) (a2 : AState)
    (h : makeRtype a T = some (id, a2)) :
    (lookupT a.rtypes T = some id ∧ a2 = a) ∨
    (lookupT a.rtypes T = none ∧ a.nodes ≠ []) := by
  rcases hl : lookupT a.rtypes T with _ | v
  · right
    refine ⟨rfl, ?_⟩
    intro hnil
    unfold makeRtype at h
    rw [hl] at h
    simp [hnil, nextNode, addOneNode, addNodesS, makeTagged, endObject, emitCs,
      addressOfF, flatten, reflectRtypePtr, mkHeader] at h
  · left
    unfold makeRtype at h
    rw [hl] at h
    simp only [Option.some.injEq, Prod.mk.injEq] at h
    obtain ⟨h1, h2⟩ := h
    subst h1
    subst h2
    exact ⟨rfl, rfl⟩

lemma makeRtype_spec (a : AState) (T : Ty) (id : Nat) (a2 : AState)
    (h : makeRtype a T = some (id, a2)) :
    lookupT a2.rtypes T = some id ∧
    a.nodes.length ≤ a2.nodes.length ∧
    (∀ i, i < a.nodes.length → a2.nodes[i]? = a.nodes[i]?) ∧
    (∀ T3 id3, lookupT a.rtypes T3 = some id3 → lookupT a2.rtypes T3 = some id3) := by
  rcases makeRtype_some a T id a2 h with ⟨hv, ha⟩ | ⟨hl, hne⟩
  · subst ha
    exact ⟨hv, Nat.le_refl _, fun i _ => rfl, fun T3 id3 h3 => h3⟩
  · rw [makeRtype_miss a T hl hne] at h
    simp only [Option.some.injEq, Prod.mk.injEq] at h
    obtain ⟨hid, ha⟩ := h
    subst hid
    refine ⟨?_, ?_, ?_, ?_⟩
    · rw [← ha]
      exact lookupT_setT_self a.rtypes T (a.nodes.length + 1)
    · rw [← ha]
      simp
    · intro i hi
      rw [← ha]
      simp only []
      rw [List.getElem?_append_left hi]
    · intro T3 id3 h3
      rw [← ha]
      have hne3 : T3 ≠ T := by
        intro he
        rw [he, hl] at h3
        exact absurd h3 (by simp)
      simp only []
      rw [lookupT_setT_ne a.rtypes T T3 (a.nodes.length + 1) hne3]
      exact h3

lemma taggedValueTy_congr (a a2 : AState) (o : Nat)
    (h : a2.nodes[o]? = a.nodes[o]?) : taggedValueTy a2 o = taggedValueTy a o := by
  unfold taggedValueTy
  rw [h]

lemma typeOfSolve_spec (delta : List Nat) (a : AState) (ids : List Nat) (a2 : AState)
    (hdelta : ∀ o ∈ delta, o < a.nodes.length)
    (h : typeOfSolve a delta = some (ids, a2)) :
    ids.length = delta.length ∧
    a.nodes.length ≤ a2.nodes.length ∧
    (∀ i, i < a.nodes.length → a2.nodes[i]? = a.nodes[i]?) ∧
    (∀ T id3, lookupT a.rtypes T = some id3 → lookupT a2.rtypes T = some id3) ∧
    (∀ j oj vj : Nat, delta[j]? = some oj → ids[j]? = some vj →
      ∃ T, taggedValueTy a oj = some T ∧ lookupT a2.rtypes T = some vj) := by
  induction delta generalizing a ids a2 with
  | nil =>
      unfold typeOfSolve at h
      simp only [Option.some.injEq, Prod.mk.injEq] at h
      obtain ⟨h1, h2⟩ := h
      subst h2
      subst h1
      refine ⟨rfl, Nat.le_refl _, fun i _ => rfl, fun T id3 h3 => h3, ?_⟩
      intro j oj vj hj hv
      simp at hj
  | cons o rest ih =>
      unfold typeOfSolve at h
      rcases h1 : typeOfSolveOne a o with _ | p
      · rw [h1] at h
        simp at h
      · rw [h1] at h
        simp only [Option.some_bind] at h
        rcases h2 : typeOfSolve p.2 rest with _ | q
        · rw [h2] at h
          simp at h
        · rw [h2] at h
          simp only [Option.map_some', Option.some.injEq, Prod.mk.injEq] at h
          obtain ⟨hids, ha2⟩ := h
          subst ha2
          unfold typeOfSolveOne at h1
          rcases ht : taggedValueTy a o with _ | T0
          · rw [ht] at h1
            simp at h1
          · rw [ht] at h1
            have hmk := makeRtype_spec a T0 p.1 p.2 (by
              rw [← h1])
            obtain ⟨hc1, hc2, hc3, hc4⟩ := hmk
            have hdelta2 : ∀ o2 ∈ rest, o2 < p.2.nodes.length := by
              intro o2 ho2
              exact Nat.lt_of_lt_of_le (hdelta o2 (List.mem_cons_of_mem o ho2)) hc2
            obtain ⟨ih1, ih2, ih3, ih4, ih5⟩ := ih p.2 q.1 q.2 hdelta2 h2
            refine ⟨?_, Nat.le_trans hc2 ih2, ?_, ?_, ?_⟩
            · rw [← hids]
              simp [ih1]
            · intro i hi
              rw [ih3 i (Nat.lt_of_lt_of_le hi hc2), hc3 i hi]
            · intro T id3 h3
              exact ih4 T id3 (hc4 T id3 h3)
            · intro j oj vj hj hv
              rw [← hids] at hv
              match j, hj, hv with
              | 0, hj, hv =>
                  simp at hj hv
                  subst hj
                  subst hv
                  exact ⟨T0, ht, ih4 T0 p.1 hc1⟩
              | j + 1, hj, hv =>
                  simp at hj hv
                  obtain ⟨T, hT, hl⟩ := ih5 j oj vj hj hv
                  refine ⟨T, ?_, hl⟩
                  rw [← hT]
                  apply taggedValueTy_congr
                  exact (hc3 oj (hdelta oj (by
                    have := List.getElem?_mem hj
                    exact List.mem_cons_of_mem o this))).symm

/-- C7: `makeRtype` is memoized per type: a hit returns the cached id
with the state unchanged; the first call for `T` creates one `rtype`
object and one canonical `*rtype` tagged object whose payload (with
its type overwritten to `T`) points to it, and caches the tagged
object's id in `a.rtypes`; later calls — directly after, or after
further `makeRtype` calls — return the identical id; consequently the
`TypeOf` constraint adds, for each dynamic type among the labels of
its delta, exactly this canonical tagged object to its result. -/
theorem claim7_makeRtype_memoized (a a1 a2 af : AState) (T T2 : Ty)
    (v id id2 : Nat) (delta ids : List Nat) :
    (lookupT a.rtypes T = some v → makeRtype a T = some (v, a)) ∧
    (lookupT a.rtypes T = none → a.nodes ≠ [] →
      makeRtype a T = some (a.nodes.length + 1,
        { a with
          nodes := a.nodes ++
            [ANode.mk T (some (AObject.mk 1 none (ObjData.tyData T) false false)),
             ANode.mk reflectRtypePtr
               (some (AObject.mk 2 none (ObjData.tyData T) true false)),
             ANode.mk T none],
          constraints := a.constraints ++
            [Constr.addr (a.nodes.length + 2) a.nodes.length],
          rtypes := setT a.rtypes T (a.nodes.length + 1) })) ∧
    (makeRtype a T = some (id, a1) → makeRtype a1 T = some (id, a1)) ∧
    (makeRtype a T = some (id, a1) → makeRtype a1 T2 = some (id2, a2) →
      makeRtype a2 T = some (id, a2)) ∧
    ((∀ o ∈ delta, o < a.nodes.length) → typeOfSolve a delta = some (ids, af) →
      ∀ j k oj ok vj vk : Nat, delta[j]? = some oj → delta[k]? = some ok →
        ids[j]? = some vj → ids[k]? = some vk →
        taggedValueTy a oj = taggedValueTy a ok → vj = vk) := by
  refine ⟨makeRtype_hit a T v, makeRtype_miss a T, ?_, ?_, ?_⟩
  · intro h
    exact makeRtype_hit a1 T id (makeRtype_spec a T id a1 h).1
  · intro h h2
    have hc := (makeRtype_spec a T id a1 h).1
    have hc2 := (makeRtype_spec a1 T2 id2 a2 h2).2.2.2 T id hc
    exact makeRtype_hit a2 T id hc2
  · intro hdelta hrun j k oj ok vj vk hoj hok hvj hvk htag
    obtain ⟨_, _, _, _, hcanon⟩ := typeOfSolve_spec delta a ids af hdelta hrun
    obtain ⟨Tj, htj, hlj⟩ := hcanon j oj vj hoj hvj
    obtain ⟨Tk, htk, hlk⟩ := hcanon k ok vk hok hvk
    have hTT : Tj = Tk := by
      rw [htj, htk] at htag
      exact Option.some.injEq Tj Tk ▸ htag
    rw [hTT] at hlj
    rw [hlj] at hlk
    exact Option.some_injective _ hlk

/-- Witness for C7: the first call at the sentinel-only state creates
the canonical tagged object with id 2 and the second call returns the
same id. -/
theorem claim7_makeRtype_memoized_witness :
    (makeRtype baseState Ty.scalar).map Prod.fst = some 2 := by
  have h := (claim7_makeRtype_memoized baseState baseState baseState baseState
    Ty.scalar Ty.scalar 0 0 0 [] []).2.1 (by decide) (by decide)
  rw [h]
  rfl

/-- C1, counterexample: processing the same `*rtype` label (type
`scalar`) in two deltas of the Zero rule creates two distinct tagged
objects (ids 3 and 5), so at most one Zero-result tagged object per
type over the whole run is false. -/
theorem claim1_zero_memoized_counterexample :
    (zeroSolveOne zeroProbeState none 1).map Prod.fst = some 3 ∧
    ((zeroSolveOne zeroProbeState none 1).bind fun p =>
      (zeroSolveOne p.2 none 1).map Prod.fst) = some 5 ∧
    (3 : Nat) ≠ 5 := by
  refine ⟨by decide, by decide, by decide⟩

lemma zeroSolveOne_spec (a : AState) (cgn : Option Nat) (o id : Nat) (a1 : AState)
    (h : zeroSolveOne a cgn o = some (id, a1)) :
    id = a.nodes.length ∧
    ∃ T, rtypeTaggedValue a o = some T ∧
      a1 = { a with
        nodes := a.nodes ++
          ANode.mk T (some (AObject.mk (1 + sizeofTy T) cgn ObjData.noData true false)) ::
          ((flatten T).map fun t => ANode.mk t none),
        reflectZeros := setT a.reflectZeros T a.nodes.length } := by
  unfold zeroSolveOne at h
  rcases ht : rtypeTaggedValue a o with _ | T
  · rw [ht] at h
    simp at h
  · rw [ht] at h
    simp only [Bool.false_and, Bool.false_eq_true, if_false, makeTagged_spec,
      Option.some.injEq, Prod.mk.injEq] at h
    obtain ⟨hid, ha1⟩ := h
    subst hid
    exact ⟨rfl, T, rfl, ha1.symm⟩

/-- C1, amended: the `Zero` rule's memoization is inert — its lookup
condition is forced false in the source — so every processed label
creates a fresh tagged object of the represented type `T` at the
current cgn (whose id, the current `nextNode`, is recorded in
`a.reflectZeros` but never reused), and two solve steps, even for the
same label and type, add two distinct tagged objects to their
results. -/
theorem claim1_zero_not_memoized (a a1 a2 : AState) (cgn cgn2 : Option Nat)
    (o o2 id id2 : Nat)
    (h1 : zeroSolveOne a cgn o = some (id, a1))
    (h2 : zeroSolveOne a1 cgn2 o2 = some (id2, a2)) :
    id = a.nodes.length ∧
    (∃ T, rtypeTaggedValue a o = some T ∧
      a1 = { a with
        nodes := a.nodes ++
          ANode.mk T (some (AObject.mk (1 + sizeofTy T) cgn ObjData.noData true false)) ::
          ((flatten T).map fun t => ANode.mk t none),
        reflectZeros := setT a.reflectZeros T a.nodes.length }) ∧
    id2 = a1.nodes.length ∧ id ≠ id2 := by
  obtain ⟨hid, T, hT, ha1⟩ := zeroSolveOne_spec a cgn o id a1 h1
  obtain ⟨hid2, T2, hT2, ha2⟩ := zeroSolveOne_spec a1 cgn2 o2 id2 a2 h2
  refine ⟨hid, ⟨T, hT, ha1⟩, hid2, ?_⟩
  have hlen : a.nodes.length < a1.nodes.length := by
    rw [ha1]
    simp
  omega

/-- Witness for C1's amended theorem at the concrete probe state. -/
theorem claim1_zero_not_memoized_witness :
    (3 : Nat) = zeroProbeState.nodes.length ∧ (3 : Nat) ≠ (5 : Nat) := by
  have h := claim1_zero_not_memoized zeroProbeState zeroProbeState1 zeroProbeState2
    none none 1 1 3 5 (by decide) (by decide)
  exact ⟨h.1, h.2.2.2⟩

lemma lookupN_setN_self (m : List (Nat × Nat)) (k v : Nat) :
    lookupN (setN m k v) k = some v := by
  induction m with
  | nil => simp [setN, lookupN]
  | cons p rest ih =>
      by_cases hp : p.1 = k
      · simp [setN, hp, lookupN]
      · simp only [setN, if_neg hp]
        simpa [lookupN, List.find?_cons, hp] using ih

lemma lookupN_setN_ne (m : List (Nat × Nat)) (k k2 v : Nat) (h : k2 ≠ k) :
    lookupN (setN m k v) k2 = lookupN m k2 := by
  have h2 : ¬ (k = k2) := fun he => h he.symm
  induction m with
  | nil => simp [setN, lookupN, List.find?, h2]
  | cons p rest ih =>
      by_cases hp : p.1 = k
      · have hp3 : ¬ (p.1 = k2) := by
          rw [hp]
          exact h2
        simp [setN, hp, lookupN, List.find?_cons, h2, hp3]
      · by_cases hq : p.1 = k2
        · simp [setN, hp, lookupN, List.find?_cons, hq, h]
        · simp only [setN, if_neg hp]
          simpa [lookupN, List.find?_cons, hq] using ih

lemma emitCs_fields (a a2 : AState) (o : Option (List Constr))
    (h : emitCs a o = some a2) :
    a2.nodes = a.nodes ∧ a2.probes = a.probes ∧ a2.hookLog = a.hookLog := by
  unfold emitCs at h
  rcases o with _ | cs
  · simp at h
  · simp only [Option.map_some', Option.some.injEq] at h
    rw [← h]
    exact ⟨rfl, rfl, rfl⟩

lemma genBuiltinProbe_step (a a2 : AState) (nm : BName) (s : Nat) (ty : Ty)
    (arg : Nat)
    (hne : a.nodes ≠ []) (hinv : probeInv a)
    (hty : nm = BName.print → flatten ty ≠ [])
    (h : genBuiltinProbe a true nm s ty arg = some a2) :
    a2.nodes ≠ [] ∧ probeInv a2 ∧
    (∀ s2 p, lookupN a.probes s2 = some p → lookupN a2.probes s2 = some p) ∧
    (nm = BName.print → lookupN a2.probes s ≠ none) := by
  rcases nm with _ | _ | _
  · -- print
    have hfl := hty rfl
    unfold genBuiltinProbe at h
    simp only [if_pos rfl] at h
    rcases hl : lookupN a.probes s with _ | p0
    · -- first encounter: create probe, fire hook
      rw [hl] at h
      simp only [Option.getD_none, if_pos rfl] at h
      set pr := addNodesS a ty with hpr
      have hprnodes : pr.2.nodes = a.nodes ++ (flatten ty).map fun t => ANode.mk t none := by
        rw [hpr]
        exact addNodesS_nodes a ty
      have hpr1 : pr.1 = a.nodes.length := by
        rw [hpr]
        unfold addNodesS nextNode
        rw [foldl_addOneNode]
        have hgt : ¬ (a.nodes.length =
            a.nodes.length + ((flatten ty).map fun t => ANode.mk t none).length) := by
          simp [List.length_map]
          intro hc
          exact hfl hc
        simp only [List.length_append]
        simp [hgt, hfl]
      have hprobe0 : pr.1 ≠ 0 := by
        rw [hpr1]
        intro hc
        exact hne (List.eq_nil_of_length_eq_zero hc)
      obtain ⟨he1, he2, he3⟩ := emitCs_fields _ a2 _ h
      refine ⟨?_, ?_, ?_, ?_⟩
      · rw [he1]
        simp only []
        rw [hprnodes]
        intro hc
        exact hne (List.append_eq_nil.mp hc).1
      · intro s2
        by_cases hs : s2 = s
        · subst hs
          right
          refine ⟨pr.1, ?_, hprobe0, ?_⟩
          · rw [he2]
            simp only []
            exact lookupN_setN_self pr.2.probes s2 pr.1
          · rw [he3]
            simp only []
            have hcnt : pr.2.hookLog = a.hookLog := by
              rw [hpr]
              unfold addNodesS
              rw [foldl_addOneNode]
              by_cases hx : nextNode a = nextNode { a with
                  nodes := a.nodes ++ (flatten ty).map fun t => ANode.mk t none } <;>
                simp [hx]
            rw [hcnt]
            rcases hinv s2 with ⟨_, hc0⟩ | ⟨p, hp, _, _⟩
            · simp [hc0]
            · rw [hl] at hp
              exact absurd hp (by simp)
        · rcases hinv s2 with ⟨hn, hc0⟩ | ⟨p, hp, hpne, hc1⟩
          · left
            constructor
            · rw [he2]
              simp only []
              rw [lookupN_setN_ne pr.2.probes s s2 pr.1 hs]
              have : pr.2.probes = a.probes := by
                rw [hpr]
                unfold addNodesS
                rw [foldl_addOneNode]
                by_cases hx : nextNode a = nextNode { a with
                    nodes := a.nodes ++ (flatten ty).map fun t => ANode.mk t none } <;>
                  simp [hx]
              rw [this]
              exact hn
            · rw [he3]
              simp only []
              have : pr.2.hookLog = a.hookLog := by
                rw [hpr]
                unfold addNodesS
                rw [foldl_addOneNode]
                by_cases hx : nextNode a = nextNode { a with
                    nodes := a.nodes ++ (flatten ty).map fun t => ANode.mk t none } <;>
                  simp [hx]
              rw [this]
              simp [List.count_append, List.count_cons, hc0, hs]
          · right
            refine ⟨p, ?_, hpne, ?_⟩
            · rw [he2]
              simp only []
              rw [lookupN_setN_ne pr.2.probes s s2 pr.1 hs]
              have : pr.2.probes = a.probes := by
                rw [hpr]
                unfold addNodesS
                rw [foldl_addOneNode]
                by_cases hx : nextNode a = nextNode { a with
                    nodes := a.nodes ++ (flatten ty).map fun t => ANode.mk t none } <;>
                  simp [hx]
              rw [this]
              exact hp
            · rw [he3]
              simp only []
              have : pr.2.hookLog = a.hookLog := by
                rw [hpr]
                unfold addNodesS
                rw [foldl_addOneNode]
                by_cases hx : nextNode a = nextNode { a with
                    nodes := a.nodes ++ (flatten ty).map fun t => ANode.mk t none } <;>
                  simp [hx]
              rw [this]
              simp [List.count_append, List.count_cons, hc1, hs]
      · intro s2 p hp
        obtain ⟨_, he2, _⟩ := emitCs_fields _ a2 _ h
        rw [he2]
        simp only []
        have hss : s2 ≠ s := by
          intro hc
          subst hc
          rw [hl] at hp
          exact absurd hp (by simp)
        rw [lookupN_setN_ne pr.2.probes s s2 pr.1 hss]
        have : pr.2.probes = a.probes := by
          rw [hpr]
          unfold addNodesS
          rw [foldl_addOneNode]
          by_cases hx : nextNode a = nextNode { a with
              nodes := a.nodes ++ (flatten ty).map fun t => ANode.mk t none } <;>
            simp [hx]
        rw [this]
        exact hp
      · intro _
        obtain ⟨_, he2, _⟩ := emitCs_fields _ a2 _ h
        rw [he2]
        simp only []
        rw [lookupN_setN_self]
        simp
    · -- later encounter: probe exists and is nonzero, no hook
      rw [hl] at h
      rcases hinv s with ⟨hn, _⟩ | ⟨p, hp, hpne, _⟩
      · rw [hl] at hn
        exact absurd hn (by simp)
      · rw [hl] at hp
        have hpp : p0 = p := Option.some_injective _ hp
        subst hpp
        simp only [Option.getD_some, if_neg hpne] at h
        obtain ⟨he1, he2, he3⟩ := emitCs_fields _ a2 _ h
        refine ⟨by rw [he1]; exact hne, ?_, ?_, ?_⟩
        · intro s2
          rcases hinv s2 with ⟨hn2, hc2⟩ | ⟨q, hq, hqne, hc2⟩
          · left
            rw [he2, he3]
            exact ⟨hn2, hc2⟩
          · right
            rw [he2, he3]
            exact ⟨q, hq, hqne, hc2⟩
        · intro s2 q hq
          rw [he2]
          exact hq
        · intro _
          rw [he2, hl]
          simp
  · -- println: no-op
    unfold genBuiltinProbe at h
    simp only [Option.some.injEq] at h
    subst h
    exact ⟨hne, hinv, fun _ _ hp => hp, by simp⟩
  · -- other default builtins: no-op
    unfold genBuiltinProbe at h
    simp only [Option.some.injEq] at h
    subst h
    exact ⟨hne, hinv, fun _ _ hp => hp, by simp⟩

lemma runPrints_inv (enc : List (BName × Nat)) (a a2 : AState)
    (siteTy : Nat → Ty) (siteArg : Nat → Nat)
    (hne : a.nodes ≠ []) (hinv : probeInv a)
    (hall : ∀ e ∈ enc, e.1 = BName.print → flatten (siteTy e.2) ≠ [])
    (h : runPrints a true siteTy siteArg enc = some a2) :
    a2.nodes ≠ [] ∧ probeInv a2 ∧
    (∀ s p, lookupN a.probes s = some p → lookupN a2.probes s = some p) ∧
    (∀ s, (BName.print, s) ∈ enc → lookupN a2.probes s ≠ none) := by
  induction enc generalizing a with
  | nil =>
      unfold runPrints at h
      simp only [Option.some.injEq] at h
      subst h
      exact ⟨hne, hinv, fun _ _ hp => hp, by simp⟩
  | cons e rest ih =>
      unfold runPrints at h
      rcases h1 : genBuiltinProbe a true e.1 e.2 (siteTy e.2) (siteArg e.2) with _ | a1
      · rw [h1] at h
        simp at h
      · rw [h1] at h
        simp only [Option.some_bind] at h
        obtain ⟨hs1, hs2, hs3, hs4⟩ := genBuiltinProbe_step a a1 e.1 e.2 _ _
          hne hinv (hall e (by simp)) h1
        obtain ⟨ih1, ih2, ih3, ih4⟩ := ih a1 hs1 hs2
          (fun e2 he2 => hall e2 (List.mem_cons_of_mem e he2)) h
        refine ⟨ih1, ih2, fun s p hp => ih3 s p (hs3 s p hp), ?_⟩
        intro s hmem
        rcases List.mem_cons.mp hmem with he | he
        · have h21 : e.1 = BName.print := by
            rw [← he]
          have h22 : e.2 = s := by
            rw [← he]
          have hn1 := hs4 h21
          rw [h22] at hn1
          rcases hx : lookupN a1.probes s with _ | p
          · exact absurd hx hn1
          · rw [ih3 s p hx]
            simp
        · exact ih4 s he

/-- C3, counterexample: a `println` call site reaches the default arm
of `genBuiltinCall`, so with a print hook installed its hook fires
zero times, not once as claimed for print/println sites. -/
theorem claim3_print_hook_counterexample :
    (runPrints baseState true (fun _ => Ty.scalar) (fun _ => 2)
        [(BName.println, 7)]).map (fun s => s.hookLog.count 7) = some 0 ∧
    (0 : Nat) ≠ 1 := by
  refine ⟨by decide, by decide⟩

/-- C3, amended: with a client print hook, for every `print` call site
of the run (whose first argument's type flattens non-empty, as every
real type does) the hook is invoked exactly once over the whole run
regardless of how many contours the call site is generated in: the
first encounter creates a canonical probe keyed by the call site and
fires the hook, and every later encounter merges its argument into the
existing probe without firing it; `println` is a no-op. -/
theorem claim3_print_hook_once_per_site (enc : List (BName × Nat)) (a a2 : AState)
    (siteTy : Nat → Ty) (siteArg : Nat → Nat)
    (hne : a.nodes ≠ []) (hprobes : a.probes = []) (hlog : a.hookLog = [])
    (hall : ∀ e ∈ enc, e.1 = BName.print → flatten (siteTy e.2) ≠ [])
    (hrun : runPrints a true siteTy siteArg enc = some a2) :
    (∀ s : Nat, (BName.print, s) ∈ enc → a2.hookLog.count s = 1) ∧
    (∀ b s : Nat × Nat, genBuiltinProbe a true BName.println b.1 (siteTy b.1) b.2
      = some a) := by
  constructor
  · have hinv : probeInv a := by
      intro s
      left
      rw [hprobes, hlog]
      exact ⟨rfl, rfl⟩
    obtain ⟨_, hinv2, _, hsome⟩ :=
      runPrints_inv enc a a2 siteTy siteArg hne hinv hall hrun
    intro s hmem
    rcases hinv2 s with ⟨hn, _⟩ | ⟨p, _, _, hc⟩
    · exact absurd hn (hsome s hmem)
    · exact hc
  · intro b s
    rfl

/-- Witness for C3 at a two-encounter run of one print site. -/
theorem claim3_print_hook_once_per_site_witness :
    printRunState.hookLog.count 7 = 1 := by
  have h := claim3_print_hook_once_per_site
    [(BName.print, 7), (BName.print, 7)] baseState printRunState
    (fun _ => Ty.scalar) (fun _ => 2)
    (by decide) rfl rfl (by decide) (by decide)
  exact h.1 7 (by decide)

lemma addNodesS_fst (a : AState) (typ : Ty) (h : flatten typ ≠ []) :
    (addNodesS a typ).1 = a.nodes.length := by
  unfold addNodesS nextNode
  rw [foldl_addOneNode]
  have hgt : ¬ (a.nodes.length = ({ a with
      nodes := a.nodes ++ (flatten typ).map fun t => ANode.mk t none } : AState).nodes.length) := by
    simp
    intro hc
    exact h hc
  simp [hgt, h]

/-- C6: for `z = append(x, y)` the generator emits exactly a width-1
copy `z = x`, allocates a fresh object `w` of the slice's backing
array type `[1]T` at this contour (data: the call instruction),
performs the element copies `*z = *y` through a fresh temporary of the
element type (a pre-applied copy or a load from `y`, and a store into
`z`), and addresses `z = &w`; for single-argument `append(x)` only the
copy `z = x` is emitted and no object is allocated. -/
theorem claim6_append_constraints (a : AState) (cgn instr zId xId yObj yVal : Nat)
    (tE t0 : Ty) (ts : List Ty)
    (hz : zId ≠ 0) (hx : xId ≠ 0) (hzx : xId ≠ zId) (hne : a.nodes ≠ [])
    (hy : yObj ≠ 0 ∨ yVal ≠ 0) (hflat : flatten tE = t0 :: ts) :
    (genAppend a cgn instr zId xId (Ty.slice tE) false yObj yVal =
      some { a with constraints := a.constraints ++ [Constr.copy zId xId] }) ∧
    (∃ loadCs storeCs,
      genLoadF yObj yVal (a.nodes.length + (ts.length + 1)) 1 (ts.length + 1)
        = some loadCs ∧
      genStoreF 0 zId (a.nodes.length + (ts.length + 1)) 1 (ts.length + 1)
        = some storeCs ∧
      genAppend a cgn instr zId xId (Ty.slice tE) true yObj yVal = some
        { a with
          nodes := a.nodes ++
            (ANode.mk t0 (some (AObject.mk (ts.length + 1) (some cgn)
                (ObjData.instrData instr) false false)) ::
              ts.map fun t => ANode.mk t none) ++
            ((t0 :: ts).map fun t => ANode.mk t none),
          constraints := a.constraints ++ [Constr.copy zId xId] ++ loadCs ++ storeCs ++
            [Constr.addr zId a.nodes.length] }) := by
  have hlen0 : a.nodes.length ≠ 0 := by
    intro hc
    exact hne (List.eq_nil_of_length_eq_zero hc)
  have hfne : flatten tE ≠ [] := by
    rw [hflat]
    simp
  have hcopy : copyF zId xId 1 = some [Constr.copy zId xId] := by
    unfold copyF
    have h1 : ¬ (xId = zId ∨ 1 = 0) := by
      simp [hzx]
    have h2 : ¬ (xId = 0 ∨ zId = 0) := by
      simp [hx, hz]
    rw [if_neg h1, if_neg h2]
    rfl
  have htmp0 : a.nodes.length + (ts.length + 1) ≠ 0 := by
    omega
  obtain ⟨loadCs, hload⟩ : ∃ lcs,
      genLoadF yObj yVal (a.nodes.length + (ts.length + 1)) 1 (ts.length + 1)
        = some lcs := by
    unfold genLoadF
    by_cases hyo : yObj ≠ 0
    · rw [if_pos hyo]
      unfold copyF
      by_cases h1 : yObj + 1 = a.nodes.length + (ts.length + 1) ∨ ts.length + 1 = 0
      · exact ⟨[], by rw [if_pos h1]⟩
      · have h2 : ¬ (yObj + 1 = 0 ∨ a.nodes.length + (ts.length + 1) = 0) := by
          push_neg
          omega
        exact ⟨(List.range (ts.length + 1)).map fun i =>
            Constr.copy (a.nodes.length + (ts.length + 1) + i) (yObj + 1 + i),
          by rw [if_neg h1, if_neg h2]⟩
    · rw [if_neg hyo]
      push_neg at hyo
      have hyv : yVal ≠ 0 := by
        rcases hy with h | h
        · exact absurd hyo h
        · exact h
      unfold loadF
      have h1 : ¬ (yVal = 0 ∧ a.nodes.length + (ts.length + 1) = 0) := by
        push_neg
        intro hc
        exact absurd hc hyv
      have h2 : ¬ (yVal = 0 ∨ a.nodes.length + (ts.length + 1) = 0) := by
        push_neg
        exact ⟨hyv, htmp0⟩
      exact ⟨(List.range (ts.length + 1)).map fun i =>
          Constr.load (1 + i) (a.nodes.length + (ts.length + 1) + i) yVal,
        by rw [if_neg htmp0, if_neg h1, if_neg h2]⟩
  have hstore : genStoreF 0 zId (a.nodes.length + (ts.length + 1)) 1 (ts.length + 1)
      = some ((List.range (ts.length + 1)).map fun i =>
          Constr.store (1 + i) zId (a.nodes.length + (ts.length + 1) + i)) := by
    unfold genStoreF storeF
    have h1 : ¬ (a.nodes.length + (ts.length + 1) = 0 ∧ zId = 0) := by
      push_neg
      intro hc
      exact absurd hc htmp0
    have h2 : ¬ (a.nodes.length + (ts.length + 1) = 0 ∨ zId = 0) := by
      push_neg
      exact ⟨htmp0, hz⟩
    simp only [ne_eq, not_true_eq_false, if_false, if_neg htmp0, if_neg h1, if_neg h2]
  have haddr : addressOfF zId a.nodes.length = some [Constr.addr zId a.nodes.length] := by
    unfold addressOfF
    simp [hz, hlen0]
  constructor
  · unfold genAppend
    rw [hcopy]
    rfl
  · refine ⟨loadCs, _, hload, hstore, ?_⟩
    unfold genAppend
    rw [hcopy]
    simp only [emitCs, Option.map_some', Option.some_bind, Bool.not_true, if_false]
    simp only [sliceToArray, arrayElem, nextNode, addNodesS_eq, sizeofTy, hflat]
    simp [flatten, hflat, endObject, nextNode, mkHeader, modify_concat, modify_concat_one,
      modify_concat_two, addNodesS_fst, hfne, hload, hstore, haddr, emitCs,
      List.append_assoc]

/-- Witness for C6: a single-argument append at the sentinel-only
state emits only the copy `z = x`. -/
theorem claim6_append_constraints_witness :
    genAppend baseState 0 9 5 6 (Ty.slice Ty.scalar) false 0 7 =
      some { baseState with constraints := baseState.constraints ++ [Constr.copy 5 6] } := by
  have h := claim6_append_constraints baseState 0 9 5 6 0 7 Ty.scalar Ty.scalar []
    (by decide) (by decide) (by decide) (by decide) (Or.inr (by decide)) (by decide)
  exact h.1

/-- C9: every SSA conversion from `unsafe.Pointer` to a pointer type
`*T` allocates a fresh unaliased object of the pointee type `T` at the
current contour (data: the conversion instruction) and addresses the
conversion's result to it, and appends a non-fatal unsoundness warning
(source position recorded, generation returning normally) exactly when
the enclosing function's package is not the allow-listed low-level
package `syscall`. -/
theorem claim9_unsafe_pointer_conversion (a : AState) (res : Nat) (tElem t0 : Ty)
    (ts : List Ty) (pkg : String) (cgn : Option Nat) (conv pos : Nat)
    (hres : res ≠ 0) (hne : a.nodes ≠ [])
    (hflat : flatten tElem = t0 :: ts) :
    genConv a res Ty.unsafePtr (Ty.ptr tElem) pkg cgn conv pos = some
      { a with
        nodes := a.nodes ++
          ANode.mk t0 (some (AObject.mk (ts.length + 1) cgn (ObjData.instrData conv)
            false false)) :: (ts.map fun t => ANode.mk t none),
        constraints := a.constraints ++ [Constr.addr res a.nodes.length],
        warnings := if pkg ≠ "syscall" then a.warnings ++ [pos] else a.warnings } := by
  have hlen0 : a.nodes.length ≠ 0 := by
    intro hc
    exact hne (List.eq_nil_of_length_eq_zero hc)
  have hfne : flatten tElem ≠ [] := by
    rw [hflat]
    simp
  unfold genConv
  rw [if_neg hres]
  by_cases hpkg : pkg = "syscall"
  · simp only [hpkg, ne_eq, not_true_eq_false, if_false, if_pos rfl]
    simp [mustDeref, addNodesS_eq, addNodesS_fst, hfne, hflat, endObject, nextNode,
      mkHeader, modify_concat, emitCs, addressOfF, hres, hlen0]
  · simp only [ne_eq, hpkg, not_false_eq_true, if_true, if_pos rfl]
    simp [mustDeref, addNodesS_eq, addNodesS_fst, hfne, hflat, endObject, nextNode,
      mkHeader, modify_concat, emitCs, addressOfF, hres, hlen0]

/-- Witness for C9 at the sentinel-only state, from a non-allow-listed
package. -/
theorem claim9_unsafe_pointer_conversion_witness :
    genConv baseState 4 Ty.unsafePtr (Ty.ptr Ty.scalar) "main" none 8 11 = some
      { baseState with
        nodes := baseState.nodes ++
          [ANode.mk Ty.scalar (some (AObject.mk 1 none (ObjData.instrData 8)
            false false))],
        constraints := [Constr.addr 4 1],
        warnings := [11] } := by
  have h := claim9_unsafe_pointer_conversion baseState 4 Ty.scalar Ty.scalar []
    "main" none 8 11 (by decide) (by decide) (by decide)
  simpa using h

/-- C10: after the generation worklist has drained, if package `os` is
imported, `generate` creates exactly one additional synthetic object —
a single-node one-element array of string labelled
`<command-line args>` with no owning call-graph node — and emits one
`addr` constraint inserting it into the points-to set of the object
node of the global `os.Args` (looked up, or created on the spot when
the global's object did not exist yet); if `os` is not imported,
nothing is created or emitted. -/
theorem claim10_os_args_epilogue (a : AState) (g gobj : Nat)
    (hne : a.nodes ≠ []) :
    (genOsArgs a false g = some a) ∧
    (lookupN a.globalobj g = some gobj → gobj ≠ 0 →
      genOsArgs a true g = some
        { a with
          nodes := a.nodes ++
            [ANode.mk Ty.str (some (AObject.mk 1 none ObjData.cmdlineArgs false false))],
          constraints := a.constraints ++ [Constr.addr gobj a.nodes.length] }) ∧
    (lookupN a.globalobj g = none →
      genOsArgs a true g = some
        { a with
          nodes := a.nodes ++
            [ANode.mk Ty.str (some (AObject.mk 1 none ObjData.cmdlineArgs false false)),
             ANode.mk (Ty.slice Ty.str)
               (some (AObject.mk 1 none (ObjData.globalData g) false false))],
          constraints := a.constraints ++
            [Constr.addr (a.nodes.length + 1) a.nodes.length],
          globalobj := setN a.globalobj g (a.nodes.length + 1) }) := by
  have hlen0 : a.nodes.length ≠ 0 := by
    intro hc
    exact hne (List.eq_nil_of_length_eq_zero hc)
  refine ⟨by unfold genOsArgs; simp, ?_, ?_⟩
  · intro hg hgz
    unfold genOsArgs objectNodeGlobal
    simp only [if_pos rfl]
    simp [flatten, addNodesS_eq, addNodesS_fst, endObject, nextNode, mkHeader,
      modify_concat, emitCs, addressOfF, hg, hgz, hlen0, mustDeref, sliceToArray]
  · intro hg
    unfold genOsArgs objectNodeGlobal
    simp only [if_pos rfl]
    have hg2 : ∀ m : AState, m.globalobj = a.globalobj → lookupN m.globalobj g = none := by
      intro m hm
      rw [hm]
      exact hg
    simp [flatten, addNodesS_eq, addNodesS_fst, endObject, nextNode, mkHeader,
      modify_concat, modify_concat_one, emitCs, addressOfF, hg, hlen0, mustDeref,
      setN, List.append_assoc]

/-- Witness for C10 at a concrete state with the os.Args object
already materialized. -/
theorem claim10_os_args_epilogue_witness :
    genOsArgs osState false 3 = some osState ∧
    genOsArgs osState true 3 = some
      { osState with
        nodes := osState.nodes ++
          [ANode.mk Ty.str (some (AObject.mk 1 none ObjData.cmdlineArgs false false))],
        constraints := [Constr.addr 2 3] } := by
  have h := claim10_os_args_epilogue osState 3 2 (by decide)
  refine ⟨h.1, ?_⟩
  have h2 := h.2.1 (by decide) (by decide)
  simpa using h2

lemma copyF_mem_iff (d s n : Nat) (cs : List Constr) (h : copyF d s n = some cs) :
    ∀ c, c ∈ cs ↔ (s ≠ d ∧ ∃ i, i < n ∧ c = Constr.copy (d + i) (s + i)) := by
  intro c
  unfold copyF at h
  by_cases h1 : s = d ∨ n = 0
  · rw [if_pos h1] at h
    injection h with h
    subst h
    simp only [List.not_mem_nil, false_iff]
    rintro ⟨hsd, i, hi, _⟩
    rcases h1 with h1 | h1
    · exact hsd h1
    · omega
  · rw [if_neg h1] at h
    by_cases h2 : s = 0 ∨ d = 0
    · rw [if_pos h2] at h
      exact absurd h (by simp)
    · rw [if_neg h2] at h
      injection h with h
      subst h
      push_neg at h1
      simp only [List.mem_map, List.mem_range]
      constructor
      · rintro ⟨i, hi, hc⟩
        exact ⟨fun he => h1.1 he, i, hi, hc.symm⟩
      · rintro ⟨_, i, hi, hc⟩
        exact ⟨i, hi, hc.symm⟩

lemma loadF_mem_iff (d s off n : Nat) (cs : List Constr) (hd : d ≠ 0) (hs : s ≠ 0)
    (h : loadF d s off n = some cs) :
    ∀ c, c ∈ cs ↔ ∃ i, i < n ∧ c = Constr.load (off + i) (d + i) s := by
  intro c
  unfold loadF at h
  rw [if_neg hd, if_neg (by
    intro hc
    exact hs hc.1), if_neg (by
    intro hc
    rcases hc with hc | hc
    · exact hs hc
    · exact hd hc)] at h
  injection h with h
  subst h
  simp only [List.mem_map, List.mem_range]
  constructor
  · rintro ⟨i, hi, hc⟩
    exact ⟨i, hi, hc.symm⟩
  · rintro ⟨i, hi, hc⟩
    exact ⟨i, hi, hc.symm⟩

lemma storeF_mem_iff (d s off n : Nat) (cs : List Constr) (hd : d ≠ 0) (hs : s ≠ 0)
    (h : storeF d s off n = some cs) :
    ∀ c, c ∈ cs ↔ ∃ i, i < n ∧ c = Constr.store (off + i) d (s + i) := by
  intro c
  unfold storeF at h
  rw [if_neg hs, if_neg (by
    intro hc
    exact hs hc.1), if_neg (by
    intro hc
    rcases hc with hc | hc
    · exact hs hc
    · exact hd hc)] at h
  injection h with h
  subst h
  simp only [List.mem_map, List.mem_range]
  constructor
  · rintro ⟨i, hi, hc⟩
    exact ⟨i, hi, hc.symm⟩
  · rintro ⟨i, hi, hc⟩
    exact ⟨i, hi, hc.symm⟩

/-- C4: pre-applied propagation is a sound refinement.  When the
pointer operand's points-to set is known at generation time to be the
singleton object returned by `objectNode`, `genLoad` emits the direct
constraint `copy{dst, obj+offset}` instead of a load and `genStore`
emits `copy{obj+offset, src}` instead of a store (conjuncts 1 and 2);
and replacing the uncollapsed load (resp. store) constraints by the
collapsed copies leaves the least points-to solution unchanged,
provided the pointer's final points-to set is the singleton `{obj}`
(conjuncts 3 and 4). -/
theorem claim4_preapplied_propagation
    (C C2 : Set Constr) (dst src obj offset sz ptr val obj2 : Nat)
    (SA SB SC SD : Nat → Set Nat) (lcs ccs scs ccs2 : List Constr)
    (hdst : dst ≠ 0) (hsrc : src ≠ 0)
    (hptr : ptr ≠ 0) (hval : val ≠ 0) :
    (∀ v r o s2, o ≠ 0 → genLoadF o v r offset s2 = copyF r (o + offset) s2) ∧
    (∀ v w o s2, o ≠ 0 → genStoreF o v w offset s2 = copyF (o + offset) w s2) ∧
    (loadF dst src offset sz = some lcs →
      copyF dst (obj + offset) sz = some ccs →
      LeastSol SA (C ∪ {c | c ∈ lcs}) →
      LeastSol SB (C ∪ {c | c ∈ ccs}) →
      SA src = {obj} →
      ∀ n, SA n = SB n) ∧
    (storeF ptr val offset sz = some scs →
      copyF (obj2 + offset) val sz = some ccs2 →
      LeastSol SC (C2 ∪ {c | c ∈ scs}) →
      LeastSol SD (C2 ∪ {c | c ∈ ccs2}) →
      SC ptr = {obj2} →
      ∀ n, SC n = SD n) := by
  refine ⟨?_, ?_, ?_, ?_⟩
  · intro v r o s2 ho
    unfold genLoadF
    rw [if_pos ho]
  · intro v w o s2 ho
    unfold genStoreF
    rw [if_pos ho]
  · intro hl hc hA hB hsing
    obtain ⟨hAs, hAmin⟩ := hA
    obtain ⟨hBs, hBmin⟩ := hB
    have hSAB : Sol SA (C ∪ {c | c ∈ ccs}) := by
      intro c hcmem
      rcases hcmem with hcmem | hcmem
      · exact hAs c (Or.inl hcmem)
      · obtain ⟨hne2, i, hi, hceq⟩ := (copyF_mem_iff dst (obj + offset) sz ccs hc c).mp hcmem
        subst hceq
        have hloadc : sat SA (Constr.load (offset + i) (dst + i) src) := by
          apply hAs
          right
          exact (loadF_mem_iff dst src offset sz lcs hdst hsrc hl _).mpr ⟨i, hi, rfl⟩
        have hmem : obj ∈ SA src := by
          rw [hsing]
          rfl
        have hsub := hloadc obj hmem
        show SA (obj + offset + i) ⊆ SA (dst + i)
        have harith : obj + (offset + i) = obj + offset + i := by omega
        rw [harith] at hsub
        exact hsub
    have hBA : ∀ n, SB n ⊆ SA n := hBmin SA hSAB
    have hSBA : Sol SB (C ∪ {c | c ∈ lcs}) := by
      intro c hcmem
      rcases hcmem with hcmem | hcmem
      · exact hBs c (Or.inl hcmem)
      · obtain ⟨i, hi, hceq⟩ := (loadF_mem_iff dst src offset sz lcs hdst hsrc hl c).mp hcmem
        subst hceq
        intro o homem
        have hoA : o ∈ SA src := hBA src homem
        rw [hsing] at hoA
        have hoe : o = obj := hoA
        subst hoe
        by_cases htriv : o + offset = dst
        · have harith : o + (offset + i) = dst + i := by omega
          rw [harith]
        · have hcm : Constr.copy (dst + i) (o + offset + i) ∈ ccs :=
            (copyF_mem_iff dst (o + offset) sz ccs hc _).mpr ⟨htriv, i, hi, rfl⟩
          have hsat := hBs _ (Or.inr hcm)
          have harith : o + (offset + i) = o + offset + i := by omega
          rw [harith]
          exact hsat
    have hAB : ∀ n, SA n ⊆ SB n := hAmin SB hSBA
    intro n
    exact Set.Subset.antisymm (hAB n) (hBA n)
  · intro hs hc hC hD hsing
    obtain ⟨hCs, hCmin⟩ := hC
    obtain ⟨hDs, hDmin⟩ := hD
    have hSCD : Sol SC (C2 ∪ {c | c ∈ ccs2}) := by
      intro c hcmem
      rcases hcmem with hcmem | hcmem
      · exact hCs c (Or.inl hcmem)
      · obtain ⟨hne2, i, hi, hceq⟩ :=
          (copyF_mem_iff (obj2 + offset) val sz ccs2 hc c).mp hcmem
        subst hceq
        have hstc : sat SC (Constr.store (offset + i) ptr (val + i)) := by
          apply hCs
          right
          exact (storeF_mem_iff ptr val offset sz scs hptr hval hs _).mpr ⟨i, hi, rfl⟩
        have hmem : obj2 ∈ SC ptr := by
          rw [hsing]
          rfl
        have hsub := hstc obj2 hmem
        show SC (val + i) ⊆ SC (obj2 + offset + i)
        have harith : obj2 + (offset + i) = obj2 + offset + i := by omega
        rw [harith] at hsub
        exact hsub
    have hDC : ∀ n, SD n ⊆ SC n := hDmin SC hSCD
    have hSDC : Sol SD (C2 ∪ {c | c ∈ scs}) := by
      intro c hcmem
      rcases hcmem with hcmem | hcmem
      · exact hDs c (Or.inl hcmem)
      · obtain ⟨i, hi, hceq⟩ := (storeF_mem_iff ptr val offset sz scs hptr hval hs c).mp hcmem
        subst hceq
        intro o homem
        have hoC : o ∈ SC ptr := hDC ptr homem
        rw [hsing] at hoC
        have hoe : o = obj2 := hoC
        subst hoe
        by_cases htriv : val = o + offset
        · have harith : o + (offset + i) = val + i := by omega
          rw [harith]
        · have hcm : Constr.copy (o + offset + i) (val + i) ∈ ccs2 :=
            (copyF_mem_iff (o + offset) val sz ccs2 hc _).mpr ⟨htriv, i, hi, rfl⟩
          have hsat := hDs _ (Or.inr hcm)
          have harith : o + (offset + i) = o + offset + i := by omega
          rw [harith]
          exact hsat
    have hCD : ∀ n, SC n ⊆ SD n := hCmin SD hSDC
    intro n
    exact Set.Subset.antisymm (hCD n) (hDC n)

/-- Witness for C4 at a concrete two-constraint system. -/
theorem claim4_preapplied_propagation_witness :
    genLoadF 2 6 3 0 1 = copyF 3 (2 + 0) 1 ∧
    genStoreF 2 6 4 0 1 = copyF (2 + 0) 4 1 ∧
    (∀ n, solWitA n = solWitA n) ∧ (∀ n, solWitC n = solWitC n) := by
  have hA : LeastSol solWitA (conWitA ∪ {c | c ∈ [Constr.load 0 3 1]}) := by
    constructor
    · intro c hc
      rcases hc with hc | hc
      · simp only [conWitA, Set.mem_insert_iff, Set.mem_singleton_iff] at hc
        rcases hc with hc | hc <;> subst hc
        · show (2 : Nat) ∈ solWitA 1
          simp [solWitA]
        · show (9 : Nat) ∈ solWitA 2
          simp [solWitA]
      · simp only [Set.mem_setOf_eq, List.mem_singleton] at hc
        subst hc
        intro o ho
        simp only [solWitA, if_pos rfl, Set.mem_singleton_iff] at ho
        subst ho
        show solWitA (2 + 0) ⊆ solWitA 3
        simp [solWitA]
    · intro T hT n
      have h12 : (2 : Nat) ∈ T 1 := hT (Constr.addr 1 2) (Or.inl (by simp [conWitA]))
      have h29 : (9 : Nat) ∈ T 2 := hT (Constr.addr 2 9) (Or.inl (by simp [conWitA]))
      have h39 : (9 : Nat) ∈ T 3 := by
        have hload := hT (Constr.load 0 3 1) (Or.inr (by simp))
        exact hload 2 h12 h29
      intro x hx
      by_cases h1 : n = 1
      · subst h1
        simp only [solWitA, if_pos rfl, Set.mem_singleton_iff] at hx
        subst hx
        exact h12
      · by_cases h2 : n = 2
        · subst h2
          simp only [solWitA, Set.mem_singleton_iff] at hx
          norm_num at hx
          subst hx
          exact h29
        · by_cases h3 : n = 3
          · subst h3
            simp only [solWitA, Set.mem_singleton_iff] at hx
            norm_num at hx
            subst hx
            exact h39
          · simp [solWitA, h1, h2, h3] at hx
  have hB : LeastSol solWitA (conWitA ∪ {c | c ∈ [Constr.copy 3 2]}) := by
    constructor
    · intro c hc
      rcases hc with hc | hc
      · simp only [conWitA, Set.mem_insert_iff, Set.mem_singleton_iff] at hc
        rcases hc with hc | hc <;> subst hc
        · show (2 : Nat) ∈ solWitA 1
          simp [solWitA]
        · show (9 : Nat) ∈ solWitA 2
          simp [solWitA]
      · simp only [Set.mem_setOf_eq, List.mem_singleton] at hc
        subst hc
        show solWitA 2 ⊆ solWitA 3
        simp [solWitA]
    · intro T hT n
      have h12 : (2 : Nat) ∈ T 1 := hT (Constr.addr 1 2) (Or.inl (by simp [conWitA]))
      have h29 : (9 : Nat) ∈ T 2 := hT (Constr.addr 2 9) (Or.inl (by simp [conWitA]))
      have h39 : (9 : Nat) ∈ T 3 := by
        have hcopy := hT (Constr.copy 3 2) (Or.inr (by simp))
        exact hcopy h29
      intro x hx
      by_cases h1 : n = 1
      · subst h1
        simp only [solWitA, if_pos rfl, Set.mem_singleton_iff] at hx
        subst hx
        exact h12
      · by_cases h2 : n = 2
        · subst h2
          simp only [solWitA, Set.mem_singleton_iff] at hx
          norm_num at hx
          subst hx
          exact h29
        · by_cases h3 : n = 3
          · subst h3
            simp only [solWitA, Set.mem_singleton_iff] at hx
            norm_num at hx
            subst hx
            exact h39
          · simp [solWitA, h1, h2, h3] at hx
  have hC : LeastSol solWitC (conWitC ∪ {c | c ∈ [Constr.store 0 1 4]}) := by
    constructor
    · intro c hc
      rcases hc with hc | hc
      · simp only [conWitC, Set.mem_insert_iff, Set.mem_singleton_iff] at hc
        rcases hc with hc | hc <;> subst hc
        · show (2 : Nat) ∈ solWitC 1
          simp [solWitC]
        · show (7 : Nat) ∈ solWitC 4
          simp [solWitC]
      · simp only [Set.mem_setOf_eq, List.mem_singleton] at hc
        subst hc
        intro o ho
        simp only [solWitC, if_pos rfl, Set.mem_singleton_iff] at ho
        subst ho
        show solWitC 4 ⊆ solWitC (2 + 0)
        simp [solWitC]
    · intro T hT n
      have h12 : (2 : Nat) ∈ T 1 := hT (Constr.addr 1 2) (Or.inl (by simp [conWitC]))
      have h47 : (7 : Nat) ∈ T 4 := hT (Constr.addr 4 7) (Or.inl (by simp [conWitC]))
      have h27 : (7 : Nat) ∈ T 2 := by
        have hst := hT (Constr.store 0 1 4) (Or.inr (by simp))
        exact hst 2 h12 h47
      intro x hx
      by_cases h1 : n = 1
      · subst h1
        simp only [solWitC, if_pos rfl, Set.mem_singleton_iff] at hx
        subst hx
        exact h12
      · by_cases h2 : n = 2
        · subst h2
          simp only [solWitC, Set.mem_singleton_iff] at hx
          norm_num at hx
          subst hx
          exact h27
        · by_cases h4 : n = 4
          · subst h4
            simp only [solWitC, Set.mem_singleton_iff] at hx
            norm_num at hx
            subst hx
            exact h47
          · simp [solWitC, h1, h2, h4] at hx
  have hD : LeastSol solWitC (conWitC ∪ {c | c ∈ [Constr.copy 2 4]}) := by
    constructor
    · intro c hc
      rcases hc with hc | hc
      · simp only [conWitC, Set.mem_insert_iff, Set.mem_singleton_iff] at hc
        rcases hc with hc | hc <;> subst hc
        · show (2 : Nat) ∈ solWitC 1
          simp [solWitC]
        · show (7 : Nat) ∈ solWitC 4
          simp [solWitC]
      · simp only [Set.mem_setOf_eq, List.mem_singleton] at hc
        subst hc
        show solWitC 4 ⊆ solWitC 2
        simp [solWitC]
    · intro T hT n
      have h12 : (2 : Nat) ∈ T 1 := hT (Constr.addr 1 2) (Or.inl (by simp [conWitC]))
      have h47 : (7 : Nat) ∈ T 4 := hT (Constr.addr 4 7) (Or.inl (by simp [conWitC]))
      have h27 : (7 : Nat) ∈ T 2 := by
        have hcopy := hT (Constr.copy 2 4) (Or.inr (by simp))
        exact hcopy h47
      intro x hx
      by_cases h1 : n = 1
      · subst h1
        simp only [solWitC, if_pos rfl, Set.mem_singleton_iff] at hx
        subst hx
        exact h12
      · by_cases h2 : n = 2
        · subst h2
          simp only [solWitC, Set.mem_singleton_iff] at hx
          norm_num at hx
          subst hx
          exact h27
        · by_cases h4 : n = 4
          · subst h4
            simp only [solWitC, Set.mem_singleton_iff] at hx
            norm_num at hx
            subst hx
            exact h47
          · simp [solWitC, h1, h2, h4] at hx
  have h := claim4_preapplied_propagation conWitA conWitC 3 1 2 0 1 1 4 2
    solWitA solWitA solWitC solWitC
    [Constr.load 0 3 1] [Constr.copy 3 2] [Constr.store 0 1 4] [Constr.copy 2 4]
    (by decide) (by decide) (by decide) (by decide)
  refine ⟨h.1 6 3 2 1 (by decide), h.2.1 6 4 2 1 (by decide), ?_, ?_⟩
  · refine fun n => h.2.2.1 (by decide) (by decide) hA hB ?_ n
    simp [solWitA]
  · refine fun n => h.2.2.2 (by decide) (by decide) hC hD ?_ n
    simp [solWitC]

end PTA
